import Mathlib

/-! Task printing (`cli/command/task/print.go`).

A shallow embedding of the task presentation pipeline: the comparator
`tasksSortable.Less`, the stable sort `Print` starts with, the walk over the
sorted tasks that resolves identifiers and derives display names, the
hand-over to the render sink, and the choice of the default format
(`DefaultFormat`).

Conventions of the embedding:

* Go strings are Lean strings. Go compares strings byte by byte; on valid
  UTF-8 that is the code point order Lean uses.
* Go `int` (`Slot`) is `Int`; the code only compares and prints it.
* The collaborators that live outside `print.go` (the identifier resolver, the
  format constructor, `IsTable`, `FormatWrite`) are parameters, bundled in
  `Deps`. The resolver is stateful (it caches and talks to the API), so it is
  given in state-passing form. The constant `formatter.TableFormatKey` is a
  parameter of `DefaultFormat`.
* `Print` returns an `Outcome`: the returned error together with the effects a
  caller can observe (the slice after the in-place sort, the resolver calls
  made, the calls of the render sink).
-/

/-! ## Definitions -/

/-- Go `time.Time`, reduced to the instant it denotes: seconds since the epoch
and the nanosecond within the second (what `sec()` and `nsec()` return). -/
structure time.Time where
  sec : Int
  nsec : Nat
deriving DecidableEq

/-- Go `func (t Time) Before(u Time) bool` for times without a monotonic clock
reading (times decoded from the API carry none):
`ts < us || ts == us && t.nsec() < u.nsec()`. -/
def time.Time.Before (t u : time.Time) : Bool :=
  decide (t.sec < u.sec) || (decide (t.sec = u.sec) && decide (t.nsec < u.nsec))

/-- The fields of `swarm.Task` that `print.go` reads. `CreatedAt` is the field
of the embedded `Meta`, so `t.Meta.CreatedAt` and `t.CreatedAt` are the same
field. -/
structure swarm.Task where
  ID : String
  ServiceID : String
  Slot : Int
  NodeID : String
  CreatedAt : time.Time
deriving DecidableEq

/-- The method `tasksSortable.Less(i, j)`, as a function of the two elements
`t[i]` and `t[j]` it reads (print.go, lines 25-44). -/
def tasksSortable.Less (ti tj : swarm.Task) : Bool :=
  -- Sort by service ID.
  if ti.ServiceID ≠ tj.ServiceID then
    decide (ti.ServiceID < tj.ServiceID)
  -- If same service, sort by slot.
  else if ti.Slot ≠ tj.Slot then
    decide (ti.Slot < tj.Slot)
  -- If same service and slot, sort by node ID.
  else if ti.NodeID ≠ tj.NodeID then
    decide (ti.NodeID < tj.NodeID)
  -- If same service, slot and node - sort by most recent.
  else
    tj.CreatedAt.Before ti.CreatedAt

/-- The inner loop of Go's `insertionSort`,
`for j := i; j > a && data.Less(j, j-1); j-- { data.Swap(j, j-1) }`:
the element `x` at position `i` moves left past every neighbour it is less
than. The argument is the sorted part `data[a:i]` read from right to left
(nearest neighbour first), and so is the result. -/
def sort.sink {α : Type} (less : α → α → Bool) (x : α) : List α → List α
  | [] => [x]
  | y :: ys => if less x y then y :: sort.sink less x ys else x :: y :: ys

/-- Go's `insertionSort(data, a, b)` on the whole slice: the outer loop
`for i := a + 1; i < b; i++` takes the elements from left to right and sinks
each into the part already sorted. -/
def sort.insertionSort {α : Type} (less : α → α → Bool) (data : List α) : List α :=
  (data.foldl (fun done x => sort.sink less x done) []).reverse

/-- Go's `sort.Stable` (standard library). On slices of up to 20 elements
(`blockSize`) it is exactly `insertionSort`; on longer slices the library
insertion-sorts blocks of 20 and merges them with `symMerge`. The library
documents the result as sorted by `Less` with equal elements in their original
order; for a comparator that is a strict weak ordering that result is unique
(`sort.Stable_unique` below), so the insertion sort gives it for every
length. -/
def sort.Stable {α : Type} (less : α → α → Bool) (data : List α) : List α :=
  sort.insertionSort less data

/-- A Go `map[string]string`. -/
abbrev GoMap := String → Option String

/-- The empty map literal `map[string]string{}`. -/
def GoMap.empty : GoMap := fun _ => none

/-- The assignment `m[k] = v`. -/
def GoMap.set (m : GoMap) (k v : String) : GoMap :=
  fun key => if key = k then some v else m key

/-- The kind tag handed to the resolver: `swarm.Service{}` or `swarm.Node{}`. -/
inductive Kind where
  | Service
  | Node
deriving DecidableEq

/-- The struct `formatter.Context`, with the fields `Print` fills in. -/
structure formatter.Context (ω φ : Type) where
  Output : ω
  Format : φ
  Trunc : Bool

/-- The collaborators of `Print` that are not defined in `print.go`.
`Resolve` is `(*idresolver.IDResolver).Resolve` in state-passing form: from
the resolver's state, a kind and an ID it gives the name or an error, and the
next state. `FormatWrite` gives the error it returns (`none` for `nil`). -/
structure Deps (σ ε φ ω : Type) where
  Resolve : σ → Kind → String → Except ε String × σ
  NewTaskFormat : String → Bool → φ
  IsTable : φ → Bool
  FormatWrite : formatter.Context ω φ → List swarm.Task → GoMap → GoMap → Option ε

/-- The local state of the loop in `Print`, with the resolver's state and the
log of the resolver calls made so far. -/
structure Walk (σ : Type) where
  prevName : String
  names : GoMap
  nodes : GoMap
  resolver : σ
  lookups : List (Kind × String)

/-- One call of `FormatWrite(tasksCtx, tasks, names, nodes)`. -/
structure SinkCall (φ ω : Type) where
  ctx : formatter.Context ω φ
  tasks : List swarm.Task
  names : GoMap
  nodes : GoMap

/-- What a call of `Print` does: the error it returns (`none` for `nil`), the
caller's slice as the call leaves it, the resolver's state and the calls made
to it, and the calls made to `FormatWrite`. -/
structure Outcome (σ ε φ ω : Type) where
  err : Option ε
  tasks : List swarm.Task
  resolver : σ
  lookups : List (Kind × String)
  writes : List (SinkCall φ ω)

/-- The canonical name of a task (print.go, lines 73-78):
`fmt.Sprintf("%v.%v", serviceName, task.Slot)` when `task.Slot != 0`, else
`fmt.Sprintf("%v.%v", serviceName, task.NodeID)`. -/
def Print.name (serviceName : String) (task : swarm.Task) : String :=
  if task.Slot ≠ 0 then
    serviceName ++ "." ++ toString task.Slot
  else
    serviceName ++ "." ++ task.NodeID

/-- The body of the loop `for _, task := range tasks` (print.go, lines 63-91).
The second component is the error of an early `return err`. -/
def Print.visit {σ ε φ ω : Type} (d : Deps σ ε φ ω) (tasksCtx : formatter.Context ω φ)
    (w : Walk σ) (task : swarm.Task) : Walk σ × Option ε :=
  match d.Resolve w.resolver Kind.Service task.ServiceID with
  | (Except.error err, r1) =>
    (Walk.mk w.prevName w.names w.nodes r1
      (w.lookups ++ [(Kind.Service, task.ServiceID)]), some err)
  | (Except.ok serviceName, r1) =>
    match d.Resolve r1 Kind.Node task.NodeID with
    | (Except.error err, r2) =>
      (Walk.mk w.prevName w.names w.nodes r2
        (w.lookups ++ [(Kind.Service, task.ServiceID), (Kind.Node, task.NodeID)]), some err)
    | (Except.ok nodeValue, r2) =>
      let name := Print.name serviceName task
      -- Indent the name if necessary
      let indentedName := if name = w.prevName then " \\_ " ++ name else name
      let names := w.names.set task.ID name
      let names := if d.IsTable tasksCtx.Format then names.set task.ID indentedName else names
      (Walk.mk name names (w.nodes.set task.ID nodeValue) r2
        (w.lookups ++ [(Kind.Service, task.ServiceID), (Kind.Node, task.NodeID)]), none)

/-- The loop `for _, task := range tasks` of `Print`: it stops at the first
`return err`. -/
def Print.range {σ ε φ ω : Type} (d : Deps σ ε φ ω) (tasksCtx : formatter.Context ω φ) :
    List swarm.Task → Walk σ → Walk σ × Option ε
  | [], w => (w, none)
  | task :: rest, w =>
    match Print.visit d tasksCtx w task with
    | (w1, some err) => (w1, some err)
    | (w1, none) => Print.range d tasksCtx rest w1

/-- The function `Print` (print.go, lines 49-95). `out` is `dockerCli.Out()`,
`resolver` the state of the resolver when `Print` is called; `ctx` is only
handed through to the resolver and is part of `d.Resolve`. -/
def Print {σ ε φ ω : Type} (d : Deps σ ε φ ω) (out : ω) (tasks : List swarm.Task)
    (resolver : σ) (trunc quiet : Bool) (format : String) : Outcome σ ε φ ω :=
  let tasks := sort.Stable tasksSortable.Less tasks
  let tasksCtx : formatter.Context ω φ :=
    formatter.Context.mk out (d.NewTaskFormat format quiet) trunc
  match Print.range d tasksCtx tasks (Walk.mk "" GoMap.empty GoMap.empty resolver []) with
  | (w, some err) => Outcome.mk (some err) tasks w.resolver w.lookups []
  | (w, none) =>
    Outcome.mk (d.FormatWrite tasksCtx tasks w.names w.nodes) tasks w.resolver w.lookups
      [SinkCall.mk tasksCtx tasks w.names w.nodes]

/-! ### Notions of the specification -/

/-- The order of the composite key as the specification words it for two
neighbours `a`, `b` of the sorted sequence: ServiceID ascending, then Slot
ascending, then NodeID ascending, then CreatedAt descending (`a` is not
earlier than `b`). -/
def KeyNonDecreasing (a b : swarm.Task) : Prop :=
  a.ServiceID < b.ServiceID ∨
  (a.ServiceID = b.ServiceID ∧ a.Slot < b.Slot) ∨
  (a.ServiceID = b.ServiceID ∧ a.Slot = b.Slot ∧ a.NodeID < b.NodeID) ∨
  (a.ServiceID = b.ServiceID ∧ a.Slot = b.Slot ∧ a.NodeID = b.NodeID ∧
    a.CreatedAt.Before b.CreatedAt = false)

instance KeyNonDecreasing.decidable (a b : swarm.Task) : Decidable (KeyNonDecreasing a b) := by
  unfold KeyNonDecreasing
  infer_instance

/-- Two tasks have identical ServiceID, Slot, NodeID and CreatedAt. -/
def sameKeys (a b : swarm.Task) : Bool :=
  decide (a.ServiceID = b.ServiceID ∧ a.Slot = b.Slot ∧ a.NodeID = b.NodeID ∧
    a.CreatedAt = b.CreatedAt)

/-- The lookups `Print` plans for a sequence of tasks, in the order of the
walk: for each task its service, then its node. -/
def plannedLookups : List swarm.Task → List (Kind × String)
  | [] => []
  | task :: rest =>
    (Kind.Service, task.ServiceID) :: (Kind.Node, task.NodeID) :: plannedLookups rest

/-- The error of the first failing call when the resolver, starting in state
`s`, is asked the given lookups in order; `none` when every call succeeds. -/
def firstFailure {σ ε : Type} (resolve : σ → Kind → String → Except ε String × σ) :
    σ → List (Kind × String) → Option ε
  | _, [] => none
  | s, (kind, id) :: rest =>
    match resolve s kind id with
    | (Except.error err, _) => some err
    | (Except.ok _, s1) => firstFailure resolve s1 rest

/-- The answers of the resolver, starting in state `s`, when it is asked for
the service and then the node of each task in turn: one pair of answers per
task. -/
def answersFor {σ ε : Type} (resolve : σ → Kind → String → Except ε String × σ) :
    σ → List swarm.Task → List (Except ε String × Except ε String)
  | _, [] => []
  | s, task :: rest =>
    let service := resolve s Kind.Service task.ServiceID
    let node := resolve service.2 Kind.Node task.NodeID
    (service.1, node.1) :: answersFor resolve node.2 rest

/-- Every lookup succeeds: the resolver answers `serviceNames[i]` and
`nodeValues[i]` for the `i`-th task. -/
def allResolved (serviceNames nodeValues : List String) {ε : Type} :
    List (Except ε String × Except ε String) :=
  List.zipWith (fun s n => (Except.ok s, Except.ok n)) serviceNames nodeValues

/-- The canonical names of a sequence of tasks whose services resolve to
`serviceNames`. -/
def canonicalNames (serviceNames : List String) (tasks : List swarm.Task) : List String :=
  List.zipWith Print.name serviceNames tasks

/-- The name an iteration records for its task: the indented form in table
mode, the canonical name otherwise (print.go, lines 81-90). -/
def recordedName (isTable : Bool) (prev name : String) : String :=
  if isTable then (if name = prev then " \\_ " ++ name else name) else name

/-! ### Sample inputs -/

/-- A task of service `svc-web` in slot 1 on node `node1`, the newer of two. -/
def sampleA : swarm.Task := swarm.Task.mk "A" "svc-web" 1 "node1" (time.Time.mk 200 0)

/-- The task `sampleA` replaced: same service, slot and node, created earlier. -/
def sampleB : swarm.Task := swarm.Task.mk "B" "svc-web" 1 "node1" (time.Time.mk 100 0)

/-- A second task with all four sort keys of `sampleB`, under another ID. -/
def sampleC : swarm.Task := swarm.Task.mk "C" "svc-web" 1 "node1" (time.Time.mk 100 0)

/-- A task of another service, `svc-db`, in slot 1. -/
def sampleD : swarm.Task := swarm.Task.mk "D" "svc-db" 1 "node2" (time.Time.mk 150 0)

/-- A task of service `svc-web` in slot 3. -/
def sampleSlotted : swarm.Task :=
  swarm.Task.mk "E" "svc-web" 3 "nodeXYZ" (time.Time.mk 300 0)

/-- A task of service `svc-web` without a slot, on node `nodeXYZ`. -/
def sampleUnslotted : swarm.Task :=
  swarm.Task.mk "F" "svc-web" 0 "nodeXYZ" (time.Time.mk 300 0)

/-- Sample collaborators: a resolver without state that knows the service
`svc-web` as `web`, the node `node1` as `manager-1` and the node `nodeXYZ` as
`worker-7`, and answers every other ID with the ID itself; formats are their
source strings, `table` is the table format; the sink succeeds. -/
def sampleDeps : Deps Unit String String Unit :=
  Deps.mk
    (fun s kind id =>
      (Except.ok (if kind = Kind.Service ∧ id = "svc-web" then "web"
        else if kind = Kind.Node ∧ id = "node1" then "manager-1"
        else if kind = Kind.Node ∧ id = "nodeXYZ" then "worker-7" else id), s))
    (fun source _ => source)
    (fun format => format == "table")
    (fun _ _ _ _ => none)

/-- Sample collaborators whose resolver counts its calls and fails at the
third one. -/
def failingDeps : Deps Nat String String Unit :=
  Deps.mk
    (fun count _ id =>
      (if count = 2 then Except.error "lookup failed" else Except.ok id, count + 1))
    (fun source _ => source)
    (fun format => format == "table")
    (fun _ _ _ _ => none)

/-! ### Default format -/

/-- The struct `configfile.ConfigFile`, with the one field `DefaultFormat`
reads. -/
structure configfile.ConfigFile where
  TasksFormat : String

/-- The function `DefaultFormat` (print.go, lines 99-104). `TableFormatKey` is
the constant `formatter.TableFormatKey`, which is declared in the formatter
package (there it is the string `table`); `len` is the length in bytes. -/
def DefaultFormat (TableFormatKey : String) (configFile : configfile.ConfigFile)
    (quiet : Bool) : String :=
  if decide (configFile.TasksFormat.utf8ByteSize > 0) && !quiet then
    configFile.TasksFormat
  else
    TableFormatKey

/-! ### Further notions of the specification and sample inputs -/

/-- The calls the resolver receives when it is asked the given lookups in
order, starting in state `s`, and asking stops after the first call that
returns an error. -/
def lookupsUntilFailure {σ ε : Type} (resolve : σ → Kind → String → Except ε String × σ) :
    σ → List (Kind × String) → List (Kind × String)
  | _, [] => []
  | s, (kind, id) :: rest =>
    match resolve s kind id with
    | (Except.error _, _) => [(kind, id)]
    | (Except.ok _, s1) => (kind, id) :: lookupsUntilFailure resolve s1 rest

/-- Sample collaborators like `sampleDeps`, with a sink that fails. -/
def brokenSinkDeps : Deps Unit String String Unit :=
  Deps.mk sampleDeps.Resolve sampleDeps.NewTaskFormat sampleDeps.IsTable
    (fun _ _ _ _ => some "write failed")

/-- Two tasks that share the ID `X`: the newer one. -/
def twinNewer : swarm.Task := swarm.Task.mk "X" "svc-web" 1 "node1" (time.Time.mk 200 0)

/-- Two tasks that share the ID `X`: the older one. -/
def twinOlder : swarm.Task := swarm.Task.mk "X" "svc-web" 1 "node1" (time.Time.mk 100 0)

/-- Sample collaborators whose resolver answers every lookup with the empty
string. -/
def blankDeps : Deps Unit String String Unit :=
  Deps.mk (fun s _ _ => (Except.ok "", s)) sampleDeps.NewTaskFormat sampleDeps.IsTable
    sampleDeps.FormatWrite

/-- A task of the global service `svc-web` on node `node1`. -/
def pinnedOne : swarm.Task := swarm.Task.mk "G1" "svc-web" 0 "node1" (time.Time.mk 100 0)

/-- A task of the global service `svc-web` on node `node2`. -/
def pinnedTwo : swarm.Task := swarm.Task.mk "G2" "svc-web" 0 "node2" (time.Time.mk 100 0)

/-- Sample collaborators whose resolver knows every service as `web` and every
node as `worker`. -/
def mergingDeps : Deps Unit String String Unit :=
  Deps.mk (fun s kind _ => (Except.ok (if kind = Kind.Service then "web" else "worker"), s))
    sampleDeps.NewTaskFormat sampleDeps.IsTable sampleDeps.FormatWrite

/-- The number a list of decimal digits denotes (the inverse of the decimal
rendering `fmt.Sprintf("%v", n)` of a natural number). -/
def decimalValue : List Char → Nat
  | [] => 0
  | c :: cs => (c.toNat - 48) * 10 ^ cs.length + decimalValue cs

/-- A task of service `svc-a` in slot 1. -/
def rivalOne : swarm.Task := swarm.Task.mk "P" "svc-a" 1 "node1" (time.Time.mk 100 0)

/-- A task of another service, `svc-b`, in slot 1. -/
def rivalTwo : swarm.Task := swarm.Task.mk "T" "svc-b" 1 "node1" (time.Time.mk 100 0)

/-- A task of service `svc-web` without a slot, on a node whose ID is `1`. -/
def numberedNode : swarm.Task := swarm.Task.mk "N" "svc-web" 0 "1" (time.Time.mk 100 0)

/-- A task of service `svc-web` in slot 1. -/
def slotOne : swarm.Task := swarm.Task.mk "S" "svc-web" 1 "node1" (time.Time.mk 100 0)

/-- A task of the global service `svc-web` on the node with ID `x.y`. -/
def driftOne : swarm.Task := swarm.Task.mk "H1" "svc-web" 0 "x.y" (time.Time.mk 100 0)

/-- A task of the global service `svc-web` on the node with ID `y`. -/
def driftTwo : swarm.Task := swarm.Task.mk "H2" "svc-web" 0 "y" (time.Time.mk 100 0)

/-- Sample collaborators whose resolver counts its calls: it knows every
service as `web` in its first two calls and as `web.x` from the third call on,
and every node as `worker`. -/
def renamingDeps : Deps Nat String String Unit :=
  Deps.mk
    (fun count kind _ =>
      (Except.ok (if kind = Kind.Service then (if count < 2 then "web" else "web.x")
        else "worker"), count + 1))
    sampleDeps.NewTaskFormat sampleDeps.IsTable sampleDeps.FormatWrite

/-! ## The insertion sort -/

section InsertionSort

variable {α : Type} (less : α → α → Bool)

theorem sort.sink_perm (x : α) (l : List α) : (sort.sink less x l).Perm (x :: l) := by
  induction l with
  | nil => exact List.Perm.refl _
  | cons y ys ih =>
    unfold sort.sink
    split
    · exact (List.Perm.cons y ih).trans (List.Perm.swap x y ys)
    · exact List.Perm.refl _

theorem sort.foldl_sink_perm (l done : List α) :
    (l.foldl (fun done x => sort.sink less x done) done).Perm (l ++ done) := by
  induction l generalizing done with
  | nil => exact List.Perm.refl _
  | cons x xs ih =>
    simp only [List.foldl_cons, List.cons_append]
    refine (ih _).trans ?_
    refine (List.Perm.append_left xs (sort.sink_perm less x done)).trans ?_
    exact List.perm_middle

theorem sort.insertionSort_perm (l : List α) : (sort.insertionSort less l).Perm l := by
  unfold sort.insertionSort
  refine (List.reverse_perm _).trans ?_
  simpa using sort.foldl_sink_perm less l []

/-- Sinking an element into a part that is in order (read right to left) keeps it in order. -/
theorem sort.sink_pairwise
    (hasym : ∀ a b, less a b = true → less b a = false)
    (htrans : ∀ a b c, less a b = false → less b c = false → less a c = false)
    (x : α) (l : List α) (h : l.Pairwise (fun a b => less a b = false)) :
    (sort.sink less x l).Pairwise (fun a b => less a b = false) := by
  induction l with
  | nil => simp [sort.sink]
  | cons y ys ih =>
    rw [List.pairwise_cons] at h
    unfold sort.sink
    split
    · rename_i hxy
      rw [List.pairwise_cons]
      refine ⟨fun z hz => ?_, ih h.2⟩
      rcases (List.mem_cons.mp ((sort.sink_perm less x ys).subset hz)) with rfl | hz
      · exact hasym _ _ hxy
      · exact h.1 z hz
    · rename_i hxy
      have hxy : less x y = false := by simpa using hxy
      rw [List.pairwise_cons]
      refine ⟨fun z hz => ?_, List.pairwise_cons.mpr h⟩
      rcases List.mem_cons.mp hz with rfl | hz
      · exact hxy
      · exact htrans _ _ _ hxy (h.1 z hz)

theorem sort.foldl_sink_pairwise
    (hasym : ∀ a b, less a b = true → less b a = false)
    (htrans : ∀ a b c, less a b = false → less b c = false → less a c = false)
    (l done : List α) (h : done.Pairwise (fun a b => less a b = false)) :
    (l.foldl (fun done x => sort.sink less x done) done).Pairwise
      (fun a b => less a b = false) := by
  induction l generalizing done with
  | nil => exact h
  | cons x xs ih => exact ih _ (sort.sink_pairwise less hasym htrans x done h)

/-- The insertion sort leaves no element after one it is less than. -/
theorem sort.insertionSort_pairwise
    (hasym : ∀ a b, less a b = true → less b a = false)
    (htrans : ∀ a b c, less a b = false → less b c = false → less a c = false)
    (l : List α) :
    (sort.insertionSort less l).Pairwise (fun a b => less b a = false) := by
  unfold sort.insertionSort
  rw [List.pairwise_reverse]
  exact sort.foldl_sink_pairwise less hasym htrans l [] List.Pairwise.nil

/-- Sinking keeps the order among elements none of which is less than another. -/
theorem sort.sink_filter (p : α → Bool)
    (hp : ∀ a b, p a = true → p b = true → less a b = false) (x : α) (l : List α) :
    (sort.sink less x l).filter p = (x :: l).filter p := by
  induction l with
  | nil => rfl
  | cons y ys ih =>
    unfold sort.sink
    split
    · rename_i hxy
      by_cases hx : p x = true
      · have hy : p y = false := by
          by_contra hy
          have := hp x y hx (by simpa using hy)
          simp [this] at hxy
        simp [List.filter_cons, hy, ih, hx]
      · have hx : p x = false := by simpa using hx
        simp [List.filter_cons, ih, hx]
    · rfl

theorem sort.foldl_sink_filter (p : α → Bool)
    (hp : ∀ a b, p a = true → p b = true → less a b = false) (l done : List α) :
    (l.foldl (fun done x => sort.sink less x done) done).filter p
      = (l.reverse ++ done).filter p := by
  induction l generalizing done with
  | nil => rfl
  | cons x xs ih =>
    simp only [List.foldl_cons, List.reverse_cons, List.append_assoc, List.singleton_append]
    rw [ih, List.filter_append, List.filter_append, sort.sink_filter less p hp]

/-- The insertion sort is stable: it keeps the order within every set of
elements none of which is less than another. -/
theorem sort.insertionSort_filter (p : α → Bool)
    (hp : ∀ a b, p a = true → p b = true → less a b = false) (l : List α) :
    (sort.insertionSort less l).filter p = l.filter p := by
  unfold sort.insertionSort
  rw [List.filter_reverse, sort.foldl_sink_filter less p hp]
  simp

theorem sort.foldl_sink_of_chain (l done : List α)
    (h : (done.reverse ++ l).Chain' (fun a b => less b a = false)) :
    l.foldl (fun done x => sort.sink less x done) done = l.reverse ++ done := by
  induction l generalizing done with
  | nil => rfl
  | cons x xs ih =>
    have hs : sort.sink less x done = x :: done := by
      cases done with
      | nil => rfl
      | cons y ys =>
        have hxy : less x y = false := by
          simp only [List.reverse_cons, List.append_assoc, List.singleton_append] at h
          exact (List.chain'_cons.mp (List.Chain'.right_of_append h)).1
        simp [sort.sink, hxy]
    simp only [List.foldl_cons, hs, List.reverse_cons, List.append_assoc, List.singleton_append]
    exact ih (x :: done) (by simpa using h)

/-- The insertion sort returns a slice that is already in order as it is. -/
theorem sort.insertionSort_of_chain (l : List α)
    (h : l.Chain' (fun a b => less b a = false)) : sort.insertionSort less l = l := by
  unfold sort.insertionSort
  rw [sort.foldl_sink_of_chain less l [] (by simpa using h)]
  simp

/-- Two lists in order that agree on every class of mutually unordered elements are equal. -/
theorem sort.eq_of_pairwise_of_filter
    (hirr : ∀ a, less a a = false) :
    ∀ (l₁ l₂ : List α),
      l₁.Pairwise (fun a b => less b a = false) →
      l₂.Pairwise (fun a b => less b a = false) →
      (∀ a, l₁.filter (fun b => !less a b && !less b a)
          = l₂.filter (fun b => !less a b && !less b a)) →
      l₁ = l₂ := by
  have hmem : ∀ (l : List α) (a : α), a ∈ l ↔
      a ∈ l.filter (fun b => !less a b && !less b a) := by
    intro l a
    simp [List.mem_filter, hirr a]
  intro l₁
  induction l₁ with
  | nil =>
    intro l₂ _ _ hf
    cases l₂ with
    | nil => rfl
    | cons y ys =>
      have : y ∈ ([] : List α) := by
        rw [hmem [] y, hf y, ← hmem]
        exact List.mem_cons_self _ _
      exact absurd this (List.not_mem_nil y)
  | cons x xs ih =>
    intro l₂ h₁ h₂ hf
    cases l₂ with
    | nil =>
      have : x ∈ ([] : List α) := by
        rw [hmem [] x, ← hf x, ← hmem]
        exact List.mem_cons_self _ _
      exact absurd this (List.not_mem_nil x)
    | cons y ys =>
      rw [List.pairwise_cons] at h₁ h₂
      have hxy : x = y := by
        by_cases hx : less x y = false
        · by_cases hy : less y x = false
          · have := hf x
            simp [List.filter_cons, hirr x, hx, hy] at this
            exact this.1
          · exfalso
            have hy : less y x = true := by simpa using hy
            have hyl : y ∈ x :: xs := by
              rw [hmem (x :: xs) y, hf y, ← hmem]
              exact List.mem_cons_self _ _
            rcases List.mem_cons.mp hyl with rfl | hyl
            · simp [hirr y] at hy
            · have := h₁.1 y hyl
              simp [this] at hy
        · exfalso
          have hx : less x y = true := by simpa using hx
          have hxl : x ∈ y :: ys := by
            rw [hmem (y :: ys) x, ← hf x, ← hmem]
            exact List.mem_cons_self _ _
          rcases List.mem_cons.mp hxl with rfl | hxl
          · simp [hirr x] at hx
          · have := h₂.1 x hxl
            simp [this] at hx
      subst hxy
      congr 1
      refine ih ys h₁.2 h₂.2 (fun a => ?_)
      have := hf a
      by_cases hc : (!less a x && !less x a) = true
      · simpa [List.filter_cons, hc] using this
      · simpa [List.filter_cons, hc] using this

/-- The result of a stable sort is unique: a sequence that is in order and
keeps, for every element, the input order of the elements unordered with it,
is the one the insertion sort gives. -/
theorem sort.Stable_unique
    (hasym : ∀ a b, less a b = true → less b a = false)
    (htrans : ∀ a b c, less a b = false → less b c = false → less a c = false)
    (l sorted : List α)
    (hsorted : sorted.Pairwise (fun a b => less b a = false))
    (hstable : ∀ a, sorted.filter (fun b => !less a b && !less b a)
        = l.filter (fun b => !less a b && !less b a)) :
    sorted = sort.Stable less l := by
  have hirr : ∀ a, less a a = false := fun a => by
    cases h : less a a
    · rfl
    · rw [hasym a a h] at h
      exact h.symm
  refine sort.eq_of_pairwise_of_filter less hirr sorted _ hsorted
    (sort.insertionSort_pairwise less hasym htrans l) (fun a => ?_)
  refine (hstable a).trans (Eq.symm ?_)
  refine sort.insertionSort_filter less _ (fun x y hx hy => ?_) l
  simp only [Bool.and_eq_true, Bool.not_eq_true'] at hx hy
  exact htrans x a y hx.2 hy.1

end InsertionSort

/-! ## The comparator -/

theorem time.Time.Before_iff (t u : time.Time) :
    t.Before u = true ↔ t.sec < u.sec ∨ (t.sec = u.sec ∧ t.nsec < u.nsec) := by
  simp [time.Time.Before]

theorem time.Time.Before_irrefl (t : time.Time) : t.Before t = false := by
  simp [time.Time.Before]

theorem time.Time.Before_asymm (t u : time.Time) (h : t.Before u = true) :
    u.Before t = false := by
  rw [time.Time.Before_iff] at h
  rw [← Bool.not_eq_true, time.Time.Before_iff]
  omega

theorem time.Time.Before_total (t u : time.Time) (h : t ≠ u) :
    t.Before u = true ∨ u.Before t = true := by
  rw [time.Time.Before_iff, time.Time.Before_iff]
  have : ¬ (t.sec = u.sec ∧ t.nsec = u.nsec) := by
    rintro ⟨h1, h2⟩
    apply h
    cases t; cases u; simp_all
  omega

theorem time.Time.not_Before_trans (t u v : time.Time) (h1 : t.Before u = false)
    (h2 : u.Before v = false) : t.Before v = false := by
  rw [← Bool.not_eq_true, time.Time.Before_iff] at *
  omega

theorem tasksSortable.Less_iff (a b : swarm.Task) :
    tasksSortable.Less a b = true ↔
      a.ServiceID < b.ServiceID ∨ (a.ServiceID = b.ServiceID ∧
        (a.Slot < b.Slot ∨ (a.Slot = b.Slot ∧
          (a.NodeID < b.NodeID ∨ (a.NodeID = b.NodeID ∧
            b.CreatedAt.Before a.CreatedAt = true))))) := by
  unfold tasksSortable.Less
  split_ifs with h1 h2 h3
  · simp [h1]
  · have h1 : a.ServiceID = b.ServiceID := by simpa using h1
    simp [h1, h2]
  · have h1 : a.ServiceID = b.ServiceID := by simpa using h1
    have h2 : a.Slot = b.Slot := by simpa using h2
    simp [h1, h2, h3]
  · have h1 : a.ServiceID = b.ServiceID := by simpa using h1
    have h2 : a.Slot = b.Slot := by simpa using h2
    have h3 : a.NodeID = b.NodeID := by simpa using h3
    simp [h1, h2, h3]

theorem tasksSortable.Less_eq_false_iff (a b : swarm.Task) :
    tasksSortable.Less a b = false ↔
      b.ServiceID < a.ServiceID ∨ (a.ServiceID = b.ServiceID ∧
        (b.Slot < a.Slot ∨ (a.Slot = b.Slot ∧
          (b.NodeID < a.NodeID ∨ (a.NodeID = b.NodeID ∧
            b.CreatedAt.Before a.CreatedAt = false))))) := by
  rw [← Bool.not_eq_true, tasksSortable.Less_iff]
  rcases lt_trichotomy a.ServiceID b.ServiceID with h1 | h1 | h1
  · simp [h1, h1.ne, h1.not_lt]
  · rcases lt_trichotomy a.Slot b.Slot with h2 | h2 | h2
    · simp [h1, h2, h2.ne, h2.not_lt]
    · rcases lt_trichotomy a.NodeID b.NodeID with h3 | h3 | h3
      · simp [h1, h2, h3, h3.ne, h3.not_lt]
      · simp [h1, h2, h3]
      · simp [h1, h2, h3, h3.ne', h3.not_lt]
    · simp [h1, h2, h2.ne', h2.not_lt]
  · simp [h1, h1.ne', h1.not_lt]

theorem tasksSortable.Less_irrefl (a : swarm.Task) : tasksSortable.Less a a = false := by
  simp [tasksSortable.Less_eq_false_iff, time.Time.Before_irrefl]

theorem tasksSortable.Less_asymm (a b : swarm.Task) (h : tasksSortable.Less a b = true) :
    tasksSortable.Less b a = false := by
  rw [tasksSortable.Less_iff] at h
  rw [tasksSortable.Less_eq_false_iff]
  rcases h with h | ⟨h1, h | ⟨h2, h | ⟨h3, h⟩⟩⟩
  · exact Or.inl h
  · exact Or.inr ⟨h1.symm, Or.inl h⟩
  · exact Or.inr ⟨h1.symm, Or.inr ⟨h2.symm, Or.inl h⟩⟩
  · exact Or.inr ⟨h1.symm, Or.inr ⟨h2.symm, Or.inr ⟨h3.symm, time.Time.Before_asymm _ _ h⟩⟩⟩

theorem tasksSortable.not_Less_trans (a b c : swarm.Task)
    (hab : tasksSortable.Less a b = false) (hbc : tasksSortable.Less b c = false) :
    tasksSortable.Less a c = false := by
  rw [tasksSortable.Less_eq_false_iff] at *
  rcases hab with h | ⟨h1, h⟩
  · rcases hbc with k | ⟨k1, k⟩
    · exact Or.inl (k.trans h)
    · exact Or.inl (k1 ▸ h)
  · rcases hbc with k | ⟨k1, k⟩
    · exact Or.inl (h1 ▸ k)
    · refine Or.inr ⟨h1.trans k1, ?_⟩
      rcases h with h | ⟨h2, h⟩
      · rcases k with k | ⟨k2, k⟩
        · exact Or.inl (k.trans h)
        · exact Or.inl (k2 ▸ h)
      · rcases k with k | ⟨k2, k⟩
        · exact Or.inl (h2 ▸ k)
        · refine Or.inr ⟨h2.trans k2, ?_⟩
          rcases h with h | ⟨h3, h⟩
          · rcases k with k | ⟨k3, k⟩
            · exact Or.inl (k.trans h)
            · exact Or.inl (k3 ▸ h)
          · rcases k with k | ⟨k3, k⟩
            · exact Or.inl (h3 ▸ k)
            · exact Or.inr ⟨h3.trans k3, time.Time.not_Before_trans _ _ _ k h⟩

/-! ## Stable ordering -/

theorem tasksSortable.Less_eq_false_iff_key (a b : swarm.Task) :
    tasksSortable.Less b a = false ↔ KeyNonDecreasing a b := by
  rw [tasksSortable.Less_eq_false_iff]
  unfold KeyNonDecreasing
  constructor
  · rintro (h | ⟨h1, h | ⟨h2, h | ⟨h3, h⟩⟩⟩)
    · exact Or.inl h
    · exact Or.inr (Or.inl ⟨h1.symm, h⟩)
    · exact Or.inr (Or.inr (Or.inl ⟨h1.symm, h2.symm, h⟩))
    · exact Or.inr (Or.inr (Or.inr ⟨h1.symm, h2.symm, h3.symm, h⟩))
  · rintro (h | ⟨h1, h⟩ | ⟨h1, h2, h⟩ | ⟨h1, h2, h3, h⟩)
    · exact Or.inl h
    · exact Or.inr ⟨h1.symm, Or.inl h⟩
    · exact Or.inr ⟨h1.symm, Or.inr ⟨h2.symm, Or.inl h⟩⟩
    · exact Or.inr ⟨h1.symm, Or.inr ⟨h2.symm, Or.inr ⟨h3.symm, h⟩⟩⟩

theorem tasksSortable.Less_eq_false_of_sameKeys (a b : swarm.Task) (h : sameKeys a b = true) :
    tasksSortable.Less a b = false := by
  simp only [sameKeys, decide_eq_true_eq] at h
  rw [tasksSortable.Less_eq_false_iff]
  exact Or.inr ⟨h.1, Or.inr ⟨h.2.1, Or.inr ⟨h.2.2.1, h.2.2.2 ▸ time.Time.Before_irrefl _⟩⟩⟩

theorem sameKeys_trans (a b c : swarm.Task) (hab : sameKeys a b = true)
    (hbc : sameKeys b c = true) : sameKeys a c = true := by
  simp only [sameKeys, decide_eq_true_eq] at *
  exact ⟨hab.1.trans hbc.1, hab.2.1.trans hbc.2.1, hab.2.2.1.trans hbc.2.2.1,
    hab.2.2.2.trans hbc.2.2.2⟩

theorem sameKeys_symm (a b : swarm.Task) (hab : sameKeys a b = true) : sameKeys b a = true := by
  simp only [sameKeys, decide_eq_true_eq] at *
  exact ⟨hab.1.symm, hab.2.1.symm, hab.2.2.1.symm, hab.2.2.2.symm⟩

theorem sameKeys_refl (a : swarm.Task) : sameKeys a a = true := by
  simp [sameKeys]

/-- The sorted sequence is in order: no task comes after one it is `Less` than. -/
theorem sort.Stable_Less_pairwise (tasks : List swarm.Task) :
    (sort.Stable tasksSortable.Less tasks).Pairwise
      (fun a b => tasksSortable.Less b a = false) :=
  sort.insertionSort_pairwise tasksSortable.Less tasksSortable.Less_asymm
    tasksSortable.not_Less_trans tasks

theorem sort.Stable_Less_perm (tasks : List swarm.Task) :
    (sort.Stable tasksSortable.Less tasks).Perm tasks :=
  sort.insertionSort_perm tasksSortable.Less tasks

/-- Two different members of a list occur in it in one order or the other. -/
theorem pair_sublist_of_mem {α : Type} (a b : α) (hne : a ≠ b) :
    ∀ (l : List α), a ∈ l → b ∈ l → List.Sublist [a, b] l ∨ List.Sublist [b, a] l
  | [], ha, _ => absurd ha (List.not_mem_nil a)
  | x :: xs, ha, hb => by
    rcases List.mem_cons.mp ha with hax | hax
    · rcases List.mem_cons.mp hb with hbx | hbx
      · exact absurd (hax.trans hbx.symm) hne
      · subst hax
        exact Or.inl (List.cons_sublist_cons.mpr (List.singleton_sublist.mpr hbx))
    · rcases List.mem_cons.mp hb with hbx | hbx
      · subst hbx
        exact Or.inr (List.cons_sublist_cons.mpr (List.singleton_sublist.mpr hax))
      · rcases pair_sublist_of_mem a b hne xs hax hbx with h | h
        · exact Or.inl (h.cons x)
        · exact Or.inr (h.cons x)

/-- C1. For every task sequence, the sequence `Print` works on after
`sort.Stable(tasksSortable(tasks))` is a permutation of the input, and every
two neighbours of it are in non-decreasing order of the composite key
(ServiceID, Slot and NodeID ascending, CreatedAt descending). -/
theorem stable_ordering_sorted_permutation {σ ε φ ω : Type} (d : Deps σ ε φ ω) (out : ω)
    (tasks : List swarm.Task) (resolver : σ) (trunc quiet : Bool) (format : String) :
    (Print d out tasks resolver trunc quiet format).tasks = sort.Stable tasksSortable.Less tasks ∧
    (sort.Stable tasksSortable.Less tasks).Perm tasks ∧
    (sort.Stable tasksSortable.Less tasks).Chain' KeyNonDecreasing := by
  refine ⟨?_, sort.Stable_Less_perm tasks, ?_⟩
  · unfold Print
    simp only
    split <;> rfl
  · have h := (sort.Stable_Less_pairwise tasks).chain'
    exact h.imp (fun a b hab => (tasksSortable.Less_eq_false_iff_key a b).mp hab)

/-- C2. The sort is stable: for every task sequence and every task `a`, the
tasks with the ServiceID, Slot, NodeID and CreatedAt of `a` come in the sorted
output in the order they have in the input; in particular, of two such tasks
the one that comes first in the input comes first in the output. -/
theorem stable_ordering_keeps_ties (tasks : List swarm.Task) (a : swarm.Task) :
    (sort.Stable tasksSortable.Less tasks).filter (sameKeys a) = tasks.filter (sameKeys a) ∧
    ∀ b, sameKeys a b = true → List.Sublist [a, b] (tasks) →
      List.Sublist [a, b] (sort.Stable tasksSortable.Less tasks) := by
  have hf : (sort.Stable tasksSortable.Less tasks).filter (sameKeys a)
      = tasks.filter (sameKeys a) :=
    sort.insertionSort_filter tasksSortable.Less (sameKeys a)
      (fun x y hx hy => tasksSortable.Less_eq_false_of_sameKeys x y
        (sameKeys_trans x a y (sameKeys_symm a x hx) hy)) tasks
  refine ⟨hf, fun b hab hsub => ?_⟩
  have h1 : List.Sublist [a, b] (tasks.filter (sameKeys a)) := by
    have := hsub.filter (sameKeys a)
    simpa [List.filter_cons, sameKeys_refl, hab] using this
  rw [← hf] at h1
  exact h1.trans (List.filter_sublist _)

/-- C3. Recency tie-break: when a task sequence contains two tasks with the
same ServiceID, Slot and NodeID and different CreatedAt, one of the two is the
later one, and in the sorted output it occurs before the earlier one and never
after it, whatever their order in the input. -/
theorem stable_ordering_recent_first (tasks : List swarm.Task) (a b : swarm.Task)
    (ha : a ∈ tasks) (hb : b ∈ tasks)
    (hservice : a.ServiceID = b.ServiceID) (hslot : a.Slot = b.Slot)
    (hnode : a.NodeID = b.NodeID) (hcreated : a.CreatedAt ≠ b.CreatedAt) :
    (b.CreatedAt.Before a.CreatedAt = true ∧
      List.Sublist [a, b] (sort.Stable tasksSortable.Less tasks) ∧
      ¬ List.Sublist [b, a] (sort.Stable tasksSortable.Less tasks)) ∨
    (a.CreatedAt.Before b.CreatedAt = true ∧
      List.Sublist [b, a] (sort.Stable tasksSortable.Less tasks) ∧
      ¬ List.Sublist [a, b] (sort.Stable tasksSortable.Less tasks)) := by
  have hsorted : ∀ x y : swarm.Task,
      List.Sublist [x, y] (sort.Stable tasksSortable.Less tasks) →
        tasksSortable.Less y x = false :=
    fun _ _ h => List.pairwise_iff_forall_sublist.mp (sort.Stable_Less_pairwise tasks) h
  have hperm := sort.Stable_Less_perm tasks
  have hne : a ≠ b := fun h => hcreated (h ▸ rfl)
  have hpair := pair_sublist_of_mem a b hne _ (hperm.mem_iff.mpr ha) (hperm.mem_iff.mpr hb)
  rcases time.Time.Before_total _ _ hcreated with h | h
  · refine Or.inr ⟨h, ?_⟩
    have hless : tasksSortable.Less b a = true :=
      (tasksSortable.Less_iff b a).mpr
        (Or.inr ⟨hservice.symm, Or.inr ⟨hslot.symm, Or.inr ⟨hnode.symm, h⟩⟩⟩)
    have hnot : ¬ List.Sublist [a, b] (sort.Stable tasksSortable.Less tasks) := fun hs => by
      have := hsorted _ _ hs
      simp [hless] at this
    exact ⟨hpair.resolve_left hnot, hnot⟩
  · refine Or.inl ⟨h, ?_⟩
    have hless : tasksSortable.Less a b = true :=
      (tasksSortable.Less_iff a b).mpr (Or.inr ⟨hservice, Or.inr ⟨hslot, Or.inr ⟨hnode, h⟩⟩⟩)
    have hnot : ¬ List.Sublist [b, a] (sort.Stable tasksSortable.Less tasks) := fun hs => by
      have := hsorted _ _ hs
      simp [hless] at this
    exact ⟨hpair.resolve_right hnot, hnot⟩

/-- C4. Grouping: in the sorted output the tasks of one service are
contiguous: when the tasks at positions `i < k < j` are `a`, `b`, `c` and `a`
and `c` have the same ServiceID, `b` has that ServiceID too. -/
theorem stable_ordering_groups_services (tasks : List swarm.Task) (i k j : Nat)
    (a b c : swarm.Task) (hik : i < k) (hkj : k < j)
    (hi : (sort.Stable tasksSortable.Less tasks)[i]? = some a)
    (hk : (sort.Stable tasksSortable.Less tasks)[k]? = some b)
    (hj : (sort.Stable tasksSortable.Less tasks)[j]? = some c)
    (hac : a.ServiceID = c.ServiceID) : b.ServiceID = a.ServiceID := by
  have hsorted := List.pairwise_iff_getElem.mp (sort.Stable_Less_pairwise tasks)
  obtain ⟨hi', rfl⟩ := List.getElem?_eq_some.mp hi
  obtain ⟨hk', rfl⟩ := List.getElem?_eq_some.mp hk
  obtain ⟨hj', rfl⟩ := List.getElem?_eq_some.mp hj
  have h1 := (tasksSortable.Less_eq_false_iff _ _).mp (hsorted i k hi' hk' hik)
  have h2 := (tasksSortable.Less_eq_false_iff _ _).mp (hsorted k j hk' hj' hkj)
  have hab : (sort.Stable tasksSortable.Less tasks)[i].ServiceID
      ≤ (sort.Stable tasksSortable.Less tasks)[k].ServiceID := by
    rcases h1 with h | ⟨h, _⟩
    · exact h.le
    · exact h.symm.le
  have hbc : (sort.Stable tasksSortable.Less tasks)[k].ServiceID
      ≤ (sort.Stable tasksSortable.Less tasks)[j].ServiceID := by
    rcases h2 with h | ⟨h, _⟩
    · exact h.le
    · exact h.symm.le
  exact le_antisymm (hac ▸ hbc) hab

/-- C5. Sorting is idempotent: applying the stable sort with
`tasksSortable.Less` to an already sorted output returns the same sequence. -/
theorem stable_ordering_idempotent (tasks : List swarm.Task) :
    sort.Stable tasksSortable.Less (sort.Stable tasksSortable.Less tasks)
      = sort.Stable tasksSortable.Less tasks :=
  sort.insertionSort_of_chain tasksSortable.Less _ (sort.Stable_Less_pairwise tasks).chain'

theorem stable_ordering_keeps_ties_witness :
    sameKeys sampleB sampleC = true ∧
    List.Sublist [sampleB, sampleC] [sampleD, sampleB, sampleA, sampleC] ∧
    List.Sublist [sampleB, sampleC]
      (sort.Stable tasksSortable.Less [sampleD, sampleB, sampleA, sampleC]) :=
  ⟨by decide, by decide,
    (stable_ordering_keeps_ties [sampleD, sampleB, sampleA, sampleC] sampleB).2 sampleC
      (by decide) (by decide)⟩

theorem stable_ordering_recent_first_witness :
    sampleA ∈ [sampleB, sampleD, sampleA] ∧ sampleB ∈ [sampleB, sampleD, sampleA] ∧
    sampleA.CreatedAt ≠ sampleB.CreatedAt ∧
    ((sampleB.CreatedAt.Before sampleA.CreatedAt = true ∧
      List.Sublist [sampleA, sampleB]
        (sort.Stable tasksSortable.Less [sampleB, sampleD, sampleA]) ∧
      ¬ List.Sublist [sampleB, sampleA]
        (sort.Stable tasksSortable.Less [sampleB, sampleD, sampleA])) ∨
    (sampleA.CreatedAt.Before sampleB.CreatedAt = true ∧
      List.Sublist [sampleB, sampleA]
        (sort.Stable tasksSortable.Less [sampleB, sampleD, sampleA]) ∧
      ¬ List.Sublist [sampleA, sampleB]
        (sort.Stable tasksSortable.Less [sampleB, sampleD, sampleA]))) :=
  ⟨by decide, by decide, by decide,
    stable_ordering_recent_first [sampleB, sampleD, sampleA] sampleA sampleB
      (by decide) (by decide) rfl rfl rfl (by decide)⟩

theorem sample_sorted :
    sort.Stable tasksSortable.Less [sampleC, sampleD, sampleB, sampleA]
      = [sampleD, sampleA, sampleC, sampleB] := by
  simp [sort.Stable, sort.insertionSort, sort.sink, tasksSortable.Less, sampleA, sampleB,
    sampleC, sampleD, time.Time.Before, String.lt_iff_toList_lt]
  decide

theorem stable_ordering_groups_services_witness :
    (sort.Stable tasksSortable.Less [sampleC, sampleD, sampleB, sampleA])[1]? = some sampleA ∧
    (sort.Stable tasksSortable.Less [sampleC, sampleD, sampleB, sampleA])[2]? = some sampleC ∧
    (sort.Stable tasksSortable.Less [sampleC, sampleD, sampleB, sampleA])[3]? = some sampleB ∧
    sampleA.ServiceID = sampleB.ServiceID ∧ sampleC.ServiceID = sampleA.ServiceID :=
  have h1 : (sort.Stable tasksSortable.Less [sampleC, sampleD, sampleB, sampleA])[1]?
      = some sampleA := by rw [sample_sorted]; rfl
  have h2 : (sort.Stable tasksSortable.Less [sampleC, sampleD, sampleB, sampleA])[2]?
      = some sampleC := by rw [sample_sorted]; rfl
  have h3 : (sort.Stable tasksSortable.Less [sampleC, sampleD, sampleB, sampleA])[3]?
      = some sampleB := by rw [sample_sorted]; rfl
  ⟨h1, h2, h3, rfl,
    stable_ordering_groups_services [sampleC, sampleD, sampleB, sampleA] 1 2 3
      sampleA sampleC sampleB (by decide) (by decide) h1 h2 h3 rfl⟩

/-! ## The walk over the sorted tasks -/

section Walk

variable {σ ε φ ω : Type} (d : Deps σ ε φ ω) (tasksCtx : formatter.Context ω φ)

/-- An iteration in which both lookups succeed. -/
theorem Print.visit_ok (w : Walk σ) (task : swarm.Task) (serviceName nodeValue : String)
    (hs : (d.Resolve w.resolver Kind.Service task.ServiceID).1 = Except.ok serviceName)
    (hn : (d.Resolve (d.Resolve w.resolver Kind.Service task.ServiceID).2 Kind.Node
      task.NodeID).1 = Except.ok nodeValue) :
    Print.visit d tasksCtx w task =
      (Walk.mk (Print.name serviceName task)
        (if d.IsTable tasksCtx.Format then
          (w.names.set task.ID (Print.name serviceName task)).set task.ID
            (if Print.name serviceName task = w.prevName
              then " \\_ " ++ Print.name serviceName task else Print.name serviceName task)
          else w.names.set task.ID (Print.name serviceName task))
        (w.nodes.set task.ID nodeValue)
        (d.Resolve (d.Resolve w.resolver Kind.Service task.ServiceID).2 Kind.Node
          task.NodeID).2
        (w.lookups ++ [(Kind.Service, task.ServiceID), (Kind.Node, task.NodeID)]), none) := by
  unfold Print.visit
  rcases h1 : d.Resolve w.resolver Kind.Service task.ServiceID with ⟨a1, r1⟩
  rw [h1] at hs hn
  simp only at hs hn
  subst hs
  rcases h2 : d.Resolve r1 Kind.Node task.NodeID with ⟨a2, r2⟩
  rw [h2] at hn
  simp only at hn
  subst hn
  simp only [h2]

/-- An iteration whose service lookup fails returns that error after one call. -/
theorem Print.visit_service_error (w : Walk σ) (task : swarm.Task) (err : ε)
    (hs : (d.Resolve w.resolver Kind.Service task.ServiceID).1 = Except.error err) :
    Print.visit d tasksCtx w task =
      (Walk.mk w.prevName w.names w.nodes
        (d.Resolve w.resolver Kind.Service task.ServiceID).2
        (w.lookups ++ [(Kind.Service, task.ServiceID)]), some err) := by
  unfold Print.visit
  rcases h1 : d.Resolve w.resolver Kind.Service task.ServiceID with ⟨a1, r1⟩
  rw [h1] at hs
  simp only at hs
  subst hs
  rfl

/-- An iteration whose node lookup fails returns that error after two calls. -/
theorem Print.visit_node_error (w : Walk σ) (task : swarm.Task) (serviceName : String)
    (err : ε)
    (hs : (d.Resolve w.resolver Kind.Service task.ServiceID).1 = Except.ok serviceName)
    (hn : (d.Resolve (d.Resolve w.resolver Kind.Service task.ServiceID).2 Kind.Node
      task.NodeID).1 = Except.error err) :
    Print.visit d tasksCtx w task =
      (Walk.mk w.prevName w.names w.nodes
        (d.Resolve (d.Resolve w.resolver Kind.Service task.ServiceID).2 Kind.Node
          task.NodeID).2
        (w.lookups ++ [(Kind.Service, task.ServiceID), (Kind.Node, task.NodeID)]),
        some err) := by
  unfold Print.visit
  rcases h1 : d.Resolve w.resolver Kind.Service task.ServiceID with ⟨a1, r1⟩
  rw [h1] at hs hn
  simp only at hs hn
  subst hs
  rcases h2 : d.Resolve r1 Kind.Node task.NodeID with ⟨a2, r2⟩
  rw [h2] at hn
  simp only at hn
  subst hn
  simp only [h2]

theorem GoMap.set_same (m : GoMap) (k v : String) : m.set k v k = some v := by
  simp [GoMap.set]

theorem GoMap.set_other (m : GoMap) (k v key : String) (h : key ≠ k) :
    m.set k v key = m key := by
  simp [GoMap.set, h]

/-- When every lookup succeeds the loop runs to its end; it leaves the entries
of other IDs alone and, the IDs being unique, records for each task the name
of its iteration. -/
theorem Print.range_ok :
    ∀ (tasks : List swarm.Task) (w : Walk σ) (serviceNames nodeValues : List String),
      answersFor d.Resolve w.resolver tasks = allResolved serviceNames nodeValues →
      ∃ w1, Print.range d tasksCtx tasks w = (w1, none) ∧
        (∀ id, id ∉ tasks.map swarm.Task.ID → w1.names id = w.names id) ∧
        ((tasks.map swarm.Task.ID).Nodup →
          ∀ (i : Nat) (task : swarm.Task) (name prev : String), tasks[i]? = some task →
            (canonicalNames serviceNames tasks)[i]? = some name →
            (w.prevName :: canonicalNames serviceNames tasks)[i]? = some prev →
            w1.names task.ID = some (recordedName (d.IsTable tasksCtx.Format) prev name))
  | [], w, _, _, _ => ⟨w, rfl, fun _ _ => rfl, fun _ i task name prev h => by simp at h⟩
  | task :: rest, w, serviceNames, nodeValues, h => by
    cases serviceNames with
    | nil => simp [answersFor, allResolved] at h
    | cons s ss =>
      cases nodeValues with
      | nil => simp [answersFor, allResolved] at h
      | cons n ns =>
        simp only [answersFor, allResolved, List.zipWith_cons_cons, List.cons.injEq,
          Prod.mk.injEq] at h
        obtain ⟨⟨hs, hn⟩, hrest⟩ := h
        have hv := Print.visit_ok d tasksCtx w task s n hs hn
        obtain ⟨w1, hrun, hframe, hvalues⟩ :=
          Print.range_ok rest (Print.visit d tasksCtx w task).1 ss ns (by rw [hv]; exact hrest)
        refine ⟨w1, ?_, ?_, ?_⟩
        · rw [Print.range]
          rw [hv] at hrun ⊢
          exact hrun
        · intro id hid
          simp only [List.map_cons, List.mem_cons, not_or] at hid
          rw [hframe id hid.2, hv]
          simp only
          split
          · rw [GoMap.set_other _ _ _ _ hid.1, GoMap.set_other _ _ _ _ hid.1]
          · rw [GoMap.set_other _ _ _ _ hid.1]
        · intro hnodup i t name prev hi hname hprev
          simp only [List.map_cons, List.nodup_cons] at hnodup
          cases i with
          | zero =>
            simp only [List.getElem?_cons_zero, Option.some.injEq, canonicalNames,
              List.zipWith_cons_cons] at hi hname hprev
            subst hi hname hprev
            rw [hframe _ hnodup.1, hv]
            simp only [recordedName]
            split
            · rw [GoMap.set_same]
            · rw [GoMap.set_same]
          | succ i =>
            simp only [List.getElem?_cons_succ, canonicalNames, List.zipWith_cons_cons]
              at hi hname hprev
            refine hvalues hnodup.2 i t name prev hi hname ?_
            rw [hv]
            cases i with
            | zero => simpa using hprev
            | succ i => simpa using hprev

end Walk

/-- Every planned lookup succeeds exactly when the resolver has an answer for
the service and the node of each task. -/
theorem firstFailure_eq_none_iff {σ ε : Type}
    (resolve : σ → Kind → String → Except ε String × σ) :
    ∀ (tasks : List swarm.Task) (s : σ),
      firstFailure resolve s (plannedLookups tasks) = none ↔
        ∃ serviceNames nodeValues,
          answersFor resolve s tasks = allResolved serviceNames nodeValues
  | [], _ => by
    simp only [plannedLookups, firstFailure, answersFor, true_iff]
    exact ⟨[], [], rfl⟩
  | task :: rest, s => by
    rw [plannedLookups, firstFailure, answersFor]
    rcases h1 : resolve s Kind.Service task.ServiceID with ⟨a1, s1⟩
    cases a1 with
    | error e =>
      refine ⟨fun h => by simp at h, ?_⟩
      rintro ⟨serviceNames, nodeValues, h⟩
      cases serviceNames with
      | nil => simp [allResolved] at h
      | cons x xs =>
        cases nodeValues with
        | nil => simp [allResolved] at h
        | cons y ys => simp [allResolved] at h
    | ok serviceName =>
      simp only
      rw [firstFailure]
      rcases h2 : resolve s1 Kind.Node task.NodeID with ⟨a2, s2⟩
      cases a2 with
      | error e =>
        refine ⟨fun h => by simp at h, ?_⟩
        rintro ⟨serviceNames, nodeValues, h⟩
        cases serviceNames with
        | nil => simp [allResolved] at h
        | cons x xs =>
          cases nodeValues with
          | nil => simp [allResolved] at h
          | cons y ys => simp [allResolved] at h
      | ok nodeValue =>
        simp only
        rw [firstFailure_eq_none_iff resolve rest s2]
        constructor
        · rintro ⟨ss, ns, h⟩
          exact ⟨serviceName :: ss, nodeValue :: ns, by simp [allResolved, h]⟩
        · rintro ⟨serviceNames, nodeValues, h⟩
          cases serviceNames with
          | nil => simp [allResolved] at h
          | cons x xs =>
            cases nodeValues with
            | nil => simp [allResolved] at h
            | cons y ys =>
              simp only [allResolved, List.zipWith_cons_cons, List.cons.injEq] at h
              exact ⟨xs, ys, h.2⟩

/-! ## Display names -/

theorem sort.Stable_Less_nodup_ID (tasks : List swarm.Task)
    (hids : (tasks.map swarm.Task.ID).Nodup) :
    ((sort.Stable tasksSortable.Less tasks).map swarm.Task.ID).Nodup :=
  (((sort.Stable_Less_perm tasks).map swarm.Task.ID).nodup_iff).mpr hids

/-- When every lookup succeeds `Print` calls the sink once, with the maps the
loop has filled, and the map of names holds for each task the name recorded in
its iteration. -/
theorem Print.names_of_resolved {σ ε φ ω : Type} (d : Deps σ ε φ ω) (out : ω)
    (tasks : List swarm.Task) (resolver : σ) (trunc quiet : Bool) (format : String)
    (serviceNames nodeValues : List String)
    (hresolve : answersFor d.Resolve resolver (sort.Stable tasksSortable.Less tasks)
      = allResolved serviceNames nodeValues)
    (hids : (tasks.map swarm.Task.ID).Nodup) :
    ∃ call, (Print d out tasks resolver trunc quiet format).writes = [call] ∧
      ∀ (i : Nat) (task : swarm.Task) (name prev : String),
        (sort.Stable tasksSortable.Less tasks)[i]? = some task →
        (canonicalNames serviceNames (sort.Stable tasksSortable.Less tasks))[i]? = some name →
        ("" :: canonicalNames serviceNames (sort.Stable tasksSortable.Less tasks))[i]?
          = some prev →
        call.names task.ID
          = some (recordedName (d.IsTable (d.NewTaskFormat format quiet)) prev name) := by
  obtain ⟨w1, hrun, _, hvalues⟩ := Print.range_ok d
    (formatter.Context.mk out (d.NewTaskFormat format quiet) trunc)
    (sort.Stable tasksSortable.Less tasks) (Walk.mk "" GoMap.empty GoMap.empty resolver [])
    serviceNames nodeValues hresolve
  refine ⟨SinkCall.mk (formatter.Context.mk out (d.NewTaskFormat format quiet) trunc)
    (sort.Stable tasksSortable.Less tasks) w1.names w1.nodes, ?_, ?_⟩
  · unfold Print
    simp only [hrun]
  · exact hvalues (sort.Stable_Less_nodup_ID tasks hids)

/-- C6. Table-mode indentation: when the format is a table, every lookup
succeeds and the task IDs are unique, the sink gets, for the task at every
position `i + 1` of the sorted sequence, the name `" \\_ "` followed by its
canonical name if that name equals the canonical name of the task at position
`i`, and its canonical name otherwise. -/
theorem table_mode_indents_repeated_name {σ ε φ ω : Type} (d : Deps σ ε φ ω) (out : ω)
    (tasks : List swarm.Task) (resolver : σ) (trunc quiet : Bool) (format : String)
    (serviceNames nodeValues : List String)
    (htable : d.IsTable (d.NewTaskFormat format quiet) = true)
    (hresolve : answersFor d.Resolve resolver (sort.Stable tasksSortable.Less tasks)
      = allResolved serviceNames nodeValues)
    (hids : (tasks.map swarm.Task.ID).Nodup) :
    ∃ call, (Print d out tasks resolver trunc quiet format).writes = [call] ∧
      ∀ (i : Nat) (task : swarm.Task) (name prev : String),
        (sort.Stable tasksSortable.Less tasks)[i + 1]? = some task →
        (canonicalNames serviceNames (sort.Stable tasksSortable.Less tasks))[i + 1]?
          = some name →
        (canonicalNames serviceNames (sort.Stable tasksSortable.Less tasks))[i]? = some prev →
        call.names task.ID = some (if name = prev then " \\_ " ++ name else name) := by
  obtain ⟨call, hcall, hnames⟩ := Print.names_of_resolved d out tasks resolver trunc quiet
    format serviceNames nodeValues hresolve hids
  refine ⟨call, hcall, fun i task name prev hi hname hprev => ?_⟩
  have h := hnames (i + 1) task name prev hi hname (by simpa using hprev)
  simpa [recordedName, htable] using h

theorem table_mode_indents_repeated_name_witness :
    sampleDeps.IsTable (sampleDeps.NewTaskFormat "table" false) = true ∧
    answersFor sampleDeps.Resolve () (sort.Stable tasksSortable.Less [sampleB, sampleA])
      = allResolved ["web", "web"] ["manager-1", "manager-1"] ∧
    ([sampleB, sampleA].map swarm.Task.ID).Nodup ∧
    sort.Stable tasksSortable.Less [sampleB, sampleA] = [sampleA, sampleB] ∧
    canonicalNames ["web", "web"] [sampleA, sampleB] = ["web.1", "web.1"] ∧
    (∃ call, (Print sampleDeps () [sampleB, sampleA] () false false "table").writes = [call] ∧
      ∀ (i : Nat) (task : swarm.Task) (name prev : String),
        (sort.Stable tasksSortable.Less [sampleB, sampleA])[i + 1]? = some task →
        (canonicalNames ["web", "web"] (sort.Stable tasksSortable.Less [sampleB, sampleA]))[i + 1]?
          = some name →
        (canonicalNames ["web", "web"] (sort.Stable tasksSortable.Less [sampleB, sampleA]))[i]?
          = some prev →
        call.names task.ID = some (if name = prev then " \\_ " ++ name else name)) ∧
    (Print sampleDeps () [sampleB, sampleA] () false false "table").writes.map
      (fun call => (call.names "A", call.names "B")) = [(some "web.1", some " \\_ web.1")] :=
  ⟨by decide, rfl, by decide, by decide, by decide,
    table_mode_indents_repeated_name sampleDeps () [sampleB, sampleA] () false false "table"
      ["web", "web"] ["manager-1", "manager-1"] (by decide) rfl (by decide),
    by decide⟩

/-- C7. Indentation never reaches machine-readable output: when the format
is not a table, every lookup succeeds and the task IDs are unique, the sink
gets for every task exactly its canonical name, also for a task whose
canonical name is that of the task before it. -/
theorem other_modes_never_indent {σ ε φ ω : Type} (d : Deps σ ε φ ω) (out : ω)
    (tasks : List swarm.Task) (resolver : σ) (trunc quiet : Bool) (format : String)
    (serviceNames nodeValues : List String)
    (htable : d.IsTable (d.NewTaskFormat format quiet) = false)
    (hresolve : answersFor d.Resolve resolver (sort.Stable tasksSortable.Less tasks)
      = allResolved serviceNames nodeValues)
    (hids : (tasks.map swarm.Task.ID).Nodup) :
    ∃ call, (Print d out tasks resolver trunc quiet format).writes = [call] ∧
      ∀ (i : Nat) (task : swarm.Task) (name : String),
        (sort.Stable tasksSortable.Less tasks)[i]? = some task →
        (canonicalNames serviceNames (sort.Stable tasksSortable.Less tasks))[i]? = some name →
        call.names task.ID = some name := by
  obtain ⟨call, hcall, hnames⟩ := Print.names_of_resolved d out tasks resolver trunc quiet
    format serviceNames nodeValues hresolve hids
  refine ⟨call, hcall, fun i task name hi hname => ?_⟩
  have hlen : i < ("" :: canonicalNames serviceNames
      (sort.Stable tasksSortable.Less tasks)).length := by
    have := (List.getElem?_eq_some.mp hname).1
    simp only [List.length_cons]
    omega
  have h := hnames i task name _ hi hname (List.getElem?_eq_getElem hlen)
  simpa [recordedName, htable] using h

theorem other_modes_never_indent_witness :
    sampleDeps.IsTable (sampleDeps.NewTaskFormat "json" false) = false ∧
    answersFor sampleDeps.Resolve () (sort.Stable tasksSortable.Less [sampleB, sampleA])
      = allResolved ["web", "web"] ["manager-1", "manager-1"] ∧
    ([sampleB, sampleA].map swarm.Task.ID).Nodup ∧
    (∃ call, (Print sampleDeps () [sampleB, sampleA] () false false "json").writes = [call] ∧
      ∀ (i : Nat) (task : swarm.Task) (name : String),
        (sort.Stable tasksSortable.Less [sampleB, sampleA])[i]? = some task →
        (canonicalNames ["web", "web"] (sort.Stable tasksSortable.Less [sampleB, sampleA]))[i]?
          = some name →
        call.names task.ID = some name) ∧
    (Print sampleDeps () [sampleB, sampleA] () false false "json").writes.map
      (fun call => (call.names "A", call.names "B")) = [(some "web.1", some "web.1")] :=
  ⟨by decide, rfl, by decide,
    other_modes_never_indent sampleDeps () [sampleB, sampleA] () false false "json"
      ["web", "web"] ["manager-1", "manager-1"] (by decide) rfl (by decide),
    by decide⟩

/-- C8. Slotted name derivation: for a task with `Slot != 0` whose ServiceID
resolves to `serviceName`, the canonical name is `serviceName`, then `"."`,
then the decimal rendering of `Slot`, whatever the NodeID is and whatever it
resolves to; the iteration keeps that name as the previous name and, outside
table mode, records it for the task. -/
theorem slotted_name_is_service_dot_slot {σ ε φ ω : Type} (d : Deps σ ε φ ω)
    (tasksCtx : formatter.Context ω φ) (w : Walk σ) (task : swarm.Task)
    (serviceName nodeValue : String)
    (hslot : task.Slot ≠ 0)
    (hservice : (d.Resolve w.resolver Kind.Service task.ServiceID).1 = Except.ok serviceName)
    (hnode : (d.Resolve (d.Resolve w.resolver Kind.Service task.ServiceID).2 Kind.Node
      task.NodeID).1 = Except.ok nodeValue) :
    Print.name serviceName task = serviceName ++ "." ++ toString task.Slot ∧
    (Print.visit d tasksCtx w task).1.prevName = serviceName ++ "." ++ toString task.Slot ∧
    (d.IsTable tasksCtx.Format = false →
      (Print.visit d tasksCtx w task).1.names task.ID
        = some (serviceName ++ "." ++ toString task.Slot)) := by
  have hname : Print.name serviceName task = serviceName ++ "." ++ toString task.Slot := by
    unfold Print.name
    rw [if_pos hslot]
  rw [Print.visit_ok d tasksCtx w task serviceName nodeValue hservice hnode]
  refine ⟨hname, hname, fun htable => ?_⟩
  simp only [htable, Bool.false_eq_true, if_false]
  rw [GoMap.set_same, hname]

theorem slotted_name_is_service_dot_slot_witness :
    sampleSlotted.Slot = 3 ∧
    (sampleDeps.Resolve () Kind.Service sampleSlotted.ServiceID).1 = Except.ok "web" ∧
    (sampleDeps.Resolve () Kind.Node sampleSlotted.NodeID).1 = Except.ok "worker-7" ∧
    "web" ++ "." ++ toString sampleSlotted.Slot = "web.3" ∧
    (Print.name "web" sampleSlotted = "web" ++ "." ++ toString sampleSlotted.Slot ∧
      (Print.visit sampleDeps (formatter.Context.mk () "json" false)
        (Walk.mk "" GoMap.empty GoMap.empty () []) sampleSlotted).1.prevName
        = "web" ++ "." ++ toString sampleSlotted.Slot ∧
      (sampleDeps.IsTable "json" = false →
        (Print.visit sampleDeps (formatter.Context.mk () "json" false)
          (Walk.mk "" GoMap.empty GoMap.empty () []) sampleSlotted).1.names sampleSlotted.ID
          = some ("web" ++ "." ++ toString sampleSlotted.Slot))) :=
  ⟨rfl, rfl, rfl, by decide,
    slotted_name_is_service_dot_slot sampleDeps (formatter.Context.mk () "json" false)
      (Walk.mk "" GoMap.empty GoMap.empty () []) sampleSlotted "web" "worker-7"
      (by decide) rfl rfl⟩

/-- C9. Unslotted name derivation: for a task with `Slot = 0` whose ServiceID
resolves to `serviceName`, the canonical name is `serviceName`, then `"."`,
then the raw NodeID, for every value `nodeValue` the resolver returns for
that NodeID; the iteration keeps that name as the previous name and, outside
table mode, records it for the task. -/
theorem unslotted_name_is_service_dot_node_id {σ ε φ ω : Type} (d : Deps σ ε φ ω)
    (tasksCtx : formatter.Context ω φ) (w : Walk σ) (task : swarm.Task)
    (serviceName nodeValue : String)
    (hslot : task.Slot = 0)
    (hservice : (d.Resolve w.resolver Kind.Service task.ServiceID).1 = Except.ok serviceName)
    (hnode : (d.Resolve (d.Resolve w.resolver Kind.Service task.ServiceID).2 Kind.Node
      task.NodeID).1 = Except.ok nodeValue) :
    Print.name serviceName task = serviceName ++ "." ++ task.NodeID ∧
    (Print.visit d tasksCtx w task).1.prevName = serviceName ++ "." ++ task.NodeID ∧
    (d.IsTable tasksCtx.Format = false →
      (Print.visit d tasksCtx w task).1.names task.ID
        = some (serviceName ++ "." ++ task.NodeID)) := by
  have hname : Print.name serviceName task = serviceName ++ "." ++ task.NodeID := by
    unfold Print.name
    rw [if_neg (not_not.mpr hslot)]
  rw [Print.visit_ok d tasksCtx w task serviceName nodeValue hservice hnode]
  refine ⟨hname, hname, fun htable => ?_⟩
  simp only [htable, Bool.false_eq_true, if_false]
  rw [GoMap.set_same, hname]

theorem unslotted_name_is_service_dot_node_id_witness :
    sampleUnslotted.Slot = 0 ∧ sampleUnslotted.NodeID = "nodeXYZ" ∧
    (sampleDeps.Resolve () Kind.Service sampleUnslotted.ServiceID).1 = Except.ok "web" ∧
    (sampleDeps.Resolve () Kind.Node sampleUnslotted.NodeID).1 = Except.ok "worker-7" ∧
    "web" ++ "." ++ sampleUnslotted.NodeID = "web.nodeXYZ" ∧
    (Print.name "web" sampleUnslotted = "web" ++ "." ++ sampleUnslotted.NodeID ∧
      (Print.visit sampleDeps (formatter.Context.mk () "json" false)
        (Walk.mk "" GoMap.empty GoMap.empty () []) sampleUnslotted).1.prevName
        = "web" ++ "." ++ sampleUnslotted.NodeID ∧
      (sampleDeps.IsTable "json" = false →
        (Print.visit sampleDeps (formatter.Context.mk () "json" false)
          (Walk.mk "" GoMap.empty GoMap.empty () []) sampleUnslotted).1.names
            sampleUnslotted.ID
          = some ("web" ++ "." ++ sampleUnslotted.NodeID))) :=
  ⟨rfl, rfl, rfl, rfl, by decide,
    unslotted_name_is_service_dot_node_id sampleDeps (formatter.Context.mk () "json" false)
      (Walk.mk "" GoMap.empty GoMap.empty () []) sampleUnslotted "web" "worker-7"
      rfl rfl rfl⟩

/-! ## Resolver failures -/

/-- When a planned lookup fails, the loop returns the error of the first
failing call. -/
theorem Print.range_failure {σ ε φ ω : Type} (d : Deps σ ε φ ω)
    (tasksCtx : formatter.Context ω φ) :
    ∀ (tasks : List swarm.Task) (w : Walk σ) (err : ε),
      firstFailure d.Resolve w.resolver (plannedLookups tasks) = some err →
      ∃ w1, Print.range d tasksCtx tasks w = (w1, some err)
  | [], _, _, h => by simp [plannedLookups, firstFailure] at h
  | task :: rest, w, err, h => by
    rw [plannedLookups, firstFailure] at h
    rw [Print.range]
    rcases h1 : d.Resolve w.resolver Kind.Service task.ServiceID with ⟨a1, r1⟩
    rw [h1] at h
    have hr1 : (d.Resolve w.resolver Kind.Service task.ServiceID).2 = r1 := by rw [h1]
    cases a1 with
    | error e =>
      simp only [Option.some.injEq] at h
      subst h
      rw [Print.visit_service_error d tasksCtx w task e (by rw [h1])]
      exact ⟨_, rfl⟩
    | ok serviceName =>
      simp only at h
      rw [firstFailure] at h
      rcases h2 : d.Resolve r1 Kind.Node task.NodeID with ⟨a2, r2⟩
      rw [h2] at h
      cases a2 with
      | error e =>
        simp only [Option.some.injEq] at h
        subst h
        rw [Print.visit_node_error d tasksCtx w task serviceName e (by rw [h1])
          (by rw [hr1, h2])]
        exact ⟨_, rfl⟩
      | ok nodeValue =>
        simp only at h
        rw [Print.visit_ok d tasksCtx w task serviceName nodeValue (by rw [h1])
          (by rw [hr1, h2])]
        simp only
        refine Print.range_failure d tasksCtx rest _ err ?_
        simp only [hr1, h2]
        exact h

/-- C10. Resolver failure propagation: if, asking the resolver for the
service and then the node of each sorted task in turn, some call returns an
error, `Print` returns the error of the first such call as it is, and
`FormatWrite` is not called. -/
theorem resolver_failure_is_returned {σ ε φ ω : Type} (d : Deps σ ε φ ω) (out : ω)
    (tasks : List swarm.Task) (resolver : σ) (trunc quiet : Bool) (format : String) (err : ε)
    (hfail : firstFailure d.Resolve resolver
      (plannedLookups (sort.Stable tasksSortable.Less tasks)) = some err) :
    (Print d out tasks resolver trunc quiet format).err = some err ∧
    (Print d out tasks resolver trunc quiet format).writes = [] := by
  obtain ⟨w1, hrun⟩ := Print.range_failure d
    (formatter.Context.mk out (d.NewTaskFormat format quiet) trunc)
    (sort.Stable tasksSortable.Less tasks) (Walk.mk "" GoMap.empty GoMap.empty resolver [])
    err hfail
  unfold Print
  simp only [hrun, and_self]

theorem resolver_failure_is_returned_witness :
    firstFailure failingDeps.Resolve 0
      (plannedLookups (sort.Stable tasksSortable.Less [sampleB, sampleA]))
      = some "lookup failed" ∧
    (Print failingDeps () [sampleB, sampleA] 0 false false "table").err
      = some "lookup failed" ∧
    (Print failingDeps () [sampleB, sampleA] 0 false false "table").writes = [] :=
  ⟨by decide,
    resolver_failure_is_returned failingDeps () [sampleB, sampleA] 0 false false "table"
      "lookup failed" (by decide)⟩

/-! ## Default format -/

theorem String.utf8ByteSize_pos_iff (s : String) : 0 < s.utf8ByteSize ↔ s ≠ "" := by
  rcases s with ⟨data⟩
  cases data with
  | nil => simp [String.utf8ByteSize, String.utf8ByteSize.go]
  | cons c cs =>
    have hc : 0 < c.utf8Size := Char.utf8Size_pos c
    have hne : (String.mk (c :: cs)) ≠ "" := by
      intro h
      have := congrArg String.data h
      simp at this
    simp only [String.utf8ByteSize, String.utf8ByteSize.go, ne_eq, hne, not_false_eq_true,
      iff_true]
    omega

theorem DefaultFormat_custom (TableFormatKey : String) (configFile : configfile.ConfigFile)
    (quiet : Bool) (h : configFile.TasksFormat ≠ "" ∧ quiet = false) :
    DefaultFormat TableFormatKey configFile quiet = configFile.TasksFormat := by
  have h1 := (String.utf8ByteSize_pos_iff configFile.TasksFormat).mpr h.1
  simp [DefaultFormat, h1, h.2]

theorem DefaultFormat_table (TableFormatKey : String) (configFile : configfile.ConfigFile)
    (quiet : Bool) (h : ¬ (configFile.TasksFormat ≠ "" ∧ quiet = false)) :
    DefaultFormat TableFormatKey configFile quiet = TableFormatKey := by
  unfold DefaultFormat
  split
  · rename_i hc
    simp only [gt_iff_lt, Bool.and_eq_true, decide_eq_true_eq, Bool.not_eq_true'] at hc
    exact absurd ⟨(String.utf8ByteSize_pos_iff _).mp hc.1, hc.2⟩ h
  · rfl

/-- C11 (as stated, refuted). With `table` as the table key, a configuration
whose TasksFormat is `table` and `quiet = true`, `DefaultFormat` returns the
string that is `configFile.TasksFormat` although quiet is true: the "only if"
of the claim fails. -/
theorem DefaultFormat_quiet_returns_configured_string :
    ¬ (DefaultFormat "table" (configfile.ConfigFile.mk "table") true
          = (configfile.ConfigFile.mk "table").TasksFormat ↔
        ((configfile.ConfigFile.mk "table").TasksFormat ≠ "" ∧ true = false)) := by
  intro h
  have h1 : DefaultFormat "table" (configfile.ConfigFile.mk "table") true
      = (configfile.ConfigFile.mk "table").TasksFormat := by decide
  exact absurd (h.mp h1).2 (by decide)

/-- C11 (amended). `DefaultFormat(configFile, quiet)` returns
`configFile.TasksFormat` when TasksFormat is non-empty and quiet is false, and
`formatter.TableFormatKey` in every other combination (quiet true, or
TasksFormat empty, or both); so its result is `configFile.TasksFormat` if and
only if TasksFormat is non-empty and quiet is false, or TasksFormat is itself
the table key. -/
theorem DefaultFormat_selection (TableFormatKey : String)
    (configFile : configfile.ConfigFile) (quiet : Bool) :
    ((configFile.TasksFormat ≠ "" ∧ quiet = false) →
      DefaultFormat TableFormatKey configFile quiet = configFile.TasksFormat) ∧
    (¬ (configFile.TasksFormat ≠ "" ∧ quiet = false) →
      DefaultFormat TableFormatKey configFile quiet = TableFormatKey) ∧
    (DefaultFormat TableFormatKey configFile quiet = configFile.TasksFormat ↔
      ((configFile.TasksFormat ≠ "" ∧ quiet = false) ∨
        configFile.TasksFormat = TableFormatKey)) := by
  refine ⟨DefaultFormat_custom TableFormatKey configFile quiet,
    DefaultFormat_table TableFormatKey configFile quiet, ?_⟩
  by_cases h : configFile.TasksFormat ≠ "" ∧ quiet = false
  · exact ⟨fun _ => Or.inl h, fun _ => DefaultFormat_custom TableFormatKey configFile quiet h⟩
  · rw [DefaultFormat_table TableFormatKey configFile quiet h]
    constructor
    · intro heq
      exact Or.inr heq.symm
    · rintro (h1 | h1)
      · exact absurd h1 h
      · exact h1.symm

theorem DefaultFormat_selection_witness :
    DefaultFormat "table" (configfile.ConfigFile.mk "json") false = "json" ∧
    DefaultFormat "table" (configfile.ConfigFile.mk "json") true = "table" ∧
    DefaultFormat "table" (configfile.ConfigFile.mk "") false = "table" ∧
    DefaultFormat "table" (configfile.ConfigFile.mk "") true = "table" :=
  ⟨(DefaultFormat_selection "table" (configfile.ConfigFile.mk "json") false).1
      ⟨by decide, rfl⟩,
    (DefaultFormat_selection "table" (configfile.ConfigFile.mk "json") true).2.1
      (by decide),
    (DefaultFormat_selection "table" (configfile.ConfigFile.mk "") false).2.1
      (by decide),
    (DefaultFormat_selection "table" (configfile.ConfigFile.mk "") true).2.1
      (by decide)⟩

/-! ## Row assembly and the render sink -/

section Rows

variable {σ ε φ ω : Type} (d : Deps σ ε φ ω) (tasksCtx : formatter.Context ω φ)

/-- The loop after an iteration in which both lookups succeed. -/
theorem Print.range_cons_ok (w : Walk σ) (task : swarm.Task) (rest : List swarm.Task)
    (serviceName nodeValue : String)
    (hs : (d.Resolve w.resolver Kind.Service task.ServiceID).1 = Except.ok serviceName)
    (hn : (d.Resolve (d.Resolve w.resolver Kind.Service task.ServiceID).2 Kind.Node
      task.NodeID).1 = Except.ok nodeValue) :
    Print.range d tasksCtx (task :: rest) w =
      Print.range d tasksCtx rest
        (Walk.mk (Print.name serviceName task)
          (if d.IsTable tasksCtx.Format then
            (w.names.set task.ID (Print.name serviceName task)).set task.ID
              (if Print.name serviceName task = w.prevName
                then " \\_ " ++ Print.name serviceName task else Print.name serviceName task)
            else w.names.set task.ID (Print.name serviceName task))
          (w.nodes.set task.ID nodeValue)
          (d.Resolve (d.Resolve w.resolver Kind.Service task.ServiceID).2 Kind.Node
            task.NodeID).2
          (w.lookups ++ [(Kind.Service, task.ServiceID), (Kind.Node, task.NodeID)])) := by
  rw [Print.range, Print.visit_ok d tasksCtx w task serviceName nodeValue hs hn]

theorem GoMap.set_isSome (m : GoMap) (k v key : String) :
    (m.set k v key).isSome = true ↔ (m key).isSome = true ∨ key = k := by
  unfold GoMap.set
  split
  · rename_i h
    simp [h]
  · rename_i h
    simp [h]

/-- When every lookup succeeds, the keys of the two maps after the loop are
the keys before it and the IDs of the tasks; the node map keeps the entries
of other IDs and, the IDs being unique, holds for each task the value its
node lookup returned. -/
theorem Print.range_ok_rows :
    ∀ (tasks : List swarm.Task) (w : Walk σ) (serviceNames nodeValues : List String),
      answersFor d.Resolve w.resolver tasks = allResolved serviceNames nodeValues →
      (∀ id, ((Print.range d tasksCtx tasks w).1.names id).isSome = true ↔
        ((w.names id).isSome = true ∨ id ∈ tasks.map swarm.Task.ID)) ∧
      (∀ id, ((Print.range d tasksCtx tasks w).1.nodes id).isSome = true ↔
        ((w.nodes id).isSome = true ∨ id ∈ tasks.map swarm.Task.ID)) ∧
      (∀ id, id ∉ tasks.map swarm.Task.ID →
        (Print.range d tasksCtx tasks w).1.nodes id = w.nodes id) ∧
      ((tasks.map swarm.Task.ID).Nodup →
        ∀ (i : Nat) (task : swarm.Task) (node : String), tasks[i]? = some task →
          nodeValues[i]? = some node →
          (Print.range d tasksCtx tasks w).1.nodes task.ID = some node)
  | [], w, _, _, _ => by
    simp [Print.range]
  | task :: rest, w, serviceNames, nodeValues, h => by
    cases serviceNames with
    | nil => simp [answersFor, allResolved] at h
    | cons s ss =>
      cases nodeValues with
      | nil => simp [answersFor, allResolved] at h
      | cons n ns =>
        simp only [answersFor, allResolved, List.zipWith_cons_cons, List.cons.injEq,
          Prod.mk.injEq] at h
        obtain ⟨⟨hs, hn⟩, hrest⟩ := h
        rw [Print.range_cons_ok d tasksCtx w task rest s n hs hn]
        obtain ⟨hnames, hnodes, hframe, hvalues⟩ := Print.range_ok_rows rest
          (Walk.mk (Print.name s task)
            (if d.IsTable tasksCtx.Format then
              (w.names.set task.ID (Print.name s task)).set task.ID
                (if Print.name s task = w.prevName
                  then " \\_ " ++ Print.name s task else Print.name s task)
              else w.names.set task.ID (Print.name s task))
            (w.nodes.set task.ID n)
            (d.Resolve (d.Resolve w.resolver Kind.Service task.ServiceID).2 Kind.Node
              task.NodeID).2
            (w.lookups ++ [(Kind.Service, task.ServiceID), (Kind.Node, task.NodeID)]))
          ss ns hrest
        refine ⟨fun id => ?_, fun id => ?_, fun id hid => ?_, fun hnodup i t node hi hnode => ?_⟩
        · rw [hnames id]
          simp only [List.map_cons, List.mem_cons]
          split
          · rw [GoMap.set_isSome, GoMap.set_isSome]
            tauto
          · rw [GoMap.set_isSome]
            tauto
        · rw [hnodes id]
          simp only [List.map_cons, List.mem_cons]
          rw [GoMap.set_isSome]
          tauto
        · simp only [List.map_cons, List.mem_cons, not_or] at hid
          rw [hframe id hid.2]
          exact GoMap.set_other _ _ _ _ hid.1
        · simp only [List.map_cons, List.nodup_cons] at hnodup
          cases i with
          | zero =>
            simp only [List.getElem?_cons_zero, Option.some.injEq] at hi hnode
            subst hi hnode
            rw [hframe _ hnodup.1]
            exact GoMap.set_same _ _ _
          | succ i =>
            simp only [List.getElem?_cons_succ] at hi hnode
            exact hvalues hnodup.2 i t node hi hnode

end Rows

/-- When every planned lookup succeeds, `Print` calls the sink once, with the
sorted tasks and the maps the loop has filled, and returns what the sink
returns. -/
theorem Print.of_resolved {σ ε φ ω : Type} (d : Deps σ ε φ ω) (out : ω)
    (tasks : List swarm.Task) (resolver : σ) (trunc quiet : Bool) (format : String)
    (hok : firstFailure d.Resolve resolver
      (plannedLookups (sort.Stable tasksSortable.Less tasks)) = none) :
    Print d out tasks resolver trunc quiet format =
      Outcome.mk
        (d.FormatWrite (formatter.Context.mk out (d.NewTaskFormat format quiet) trunc)
          (sort.Stable tasksSortable.Less tasks)
          (Print.range d (formatter.Context.mk out (d.NewTaskFormat format quiet) trunc)
            (sort.Stable tasksSortable.Less tasks)
            (Walk.mk "" GoMap.empty GoMap.empty resolver [])).1.names
          (Print.range d (formatter.Context.mk out (d.NewTaskFormat format quiet) trunc)
            (sort.Stable tasksSortable.Less tasks)
            (Walk.mk "" GoMap.empty GoMap.empty resolver [])).1.nodes)
        (sort.Stable tasksSortable.Less tasks)
        (Print.range d (formatter.Context.mk out (d.NewTaskFormat format quiet) trunc)
          (sort.Stable tasksSortable.Less tasks)
          (Walk.mk "" GoMap.empty GoMap.empty resolver [])).1.resolver
        (Print.range d (formatter.Context.mk out (d.NewTaskFormat format quiet) trunc)
          (sort.Stable tasksSortable.Less tasks)
          (Walk.mk "" GoMap.empty GoMap.empty resolver [])).1.lookups
        [SinkCall.mk (formatter.Context.mk out (d.NewTaskFormat format quiet) trunc)
          (sort.Stable tasksSortable.Less tasks)
          (Print.range d (formatter.Context.mk out (d.NewTaskFormat format quiet) trunc)
            (sort.Stable tasksSortable.Less tasks)
            (Walk.mk "" GoMap.empty GoMap.empty resolver [])).1.names
          (Print.range d (formatter.Context.mk out (d.NewTaskFormat format quiet) trunc)
            (sort.Stable tasksSortable.Less tasks)
            (Walk.mk "" GoMap.empty GoMap.empty resolver [])).1.nodes] := by
  obtain ⟨serviceNames, nodeValues, hresolve⟩ :=
    (firstFailure_eq_none_iff d.Resolve _ resolver).mp hok
  obtain ⟨w1, hrun, _, _⟩ := Print.range_ok d
    (formatter.Context.mk out (d.NewTaskFormat format quiet) trunc)
    (sort.Stable tasksSortable.Less tasks) (Walk.mk "" GoMap.empty GoMap.empty resolver [])
    serviceNames nodeValues hresolve
  unfold Print
  simp only [hrun]

/-- C12. When every resolver call succeeds, `Print` calls the render sink
exactly once, with the context it has built and the tasks in the stably
sorted order, and returns the sink's result unchanged: `nil` if the sink
succeeds, the sink's own error otherwise. -/
theorem sink_called_once_with_sorted_tasks {σ ε φ ω : Type} (d : Deps σ ε φ ω) (out : ω)
    (tasks : List swarm.Task) (resolver : σ) (trunc quiet : Bool) (format : String)
    (hok : firstFailure d.Resolve resolver
      (plannedLookups (sort.Stable tasksSortable.Less tasks)) = none) :
    ∃ call, (Print d out tasks resolver trunc quiet format).writes = [call] ∧
      call.tasks = sort.Stable tasksSortable.Less tasks ∧
      call.ctx = formatter.Context.mk out (d.NewTaskFormat format quiet) trunc ∧
      (Print d out tasks resolver trunc quiet format).err
        = d.FormatWrite call.ctx call.tasks call.names call.nodes := by
  rw [Print.of_resolved d out tasks resolver trunc quiet format hok]
  exact ⟨_, rfl, rfl, rfl, rfl⟩

theorem sink_called_once_with_sorted_tasks_witness :
    firstFailure brokenSinkDeps.Resolve ()
      (plannedLookups (sort.Stable tasksSortable.Less [sampleB, sampleA])) = none ∧
    (∃ call, (Print brokenSinkDeps () [sampleB, sampleA] () false false "table").writes
        = [call] ∧
      call.tasks = sort.Stable tasksSortable.Less [sampleB, sampleA] ∧
      call.ctx = formatter.Context.mk () (brokenSinkDeps.NewTaskFormat "table" false) false ∧
      (Print brokenSinkDeps () [sampleB, sampleA] () false false "table").err
        = brokenSinkDeps.FormatWrite call.ctx call.tasks call.names call.nodes) ∧
    (Print brokenSinkDeps () [sampleB, sampleA] () false false "table").err
      = some "write failed" ∧
    (Print sampleDeps () [sampleB, sampleA] () false false "table").err = none :=
  ⟨by decide,
    sink_called_once_with_sorted_tasks brokenSinkDeps () [sampleB, sampleA] () false false
      "table" (by decide),
    by decide, by decide⟩

/-- C13. Row assembly: when every resolver call succeeds and the task IDs are
unique, the two maps the sink gets both have exactly the IDs of the input
tasks as their keys, and the node map sends the ID of each task to the value
the resolver returned for the NodeID of that task. -/
theorem row_maps_keyed_by_task_id {σ ε φ ω : Type} (d : Deps σ ε φ ω) (out : ω)
    (tasks : List swarm.Task) (resolver : σ) (trunc quiet : Bool) (format : String)
    (serviceNames nodeValues : List String)
    (hresolve : answersFor d.Resolve resolver (sort.Stable tasksSortable.Less tasks)
      = allResolved serviceNames nodeValues)
    (hids : (tasks.map swarm.Task.ID).Nodup) :
    ∃ call, (Print d out tasks resolver trunc quiet format).writes = [call] ∧
      (∀ id, (call.names id).isSome = true ↔ id ∈ tasks.map swarm.Task.ID) ∧
      (∀ id, (call.nodes id).isSome = true ↔ id ∈ tasks.map swarm.Task.ID) ∧
      ∀ (i : Nat) (task : swarm.Task) (node : String),
        (sort.Stable tasksSortable.Less tasks)[i]? = some task →
        nodeValues[i]? = some node →
        call.nodes task.ID = some node := by
  have hok := (firstFailure_eq_none_iff d.Resolve _ resolver).mpr
    ⟨serviceNames, nodeValues, hresolve⟩
  obtain ⟨hnames, hnodes, _, hvalues⟩ := Print.range_ok_rows d
    (formatter.Context.mk out (d.NewTaskFormat format quiet) trunc)
    (sort.Stable tasksSortable.Less tasks) (Walk.mk "" GoMap.empty GoMap.empty resolver [])
    serviceNames nodeValues hresolve
  have hmem : ∀ id, id ∈ (sort.Stable tasksSortable.Less tasks).map swarm.Task.ID ↔
      id ∈ tasks.map swarm.Task.ID :=
    fun id => ((sort.Stable_Less_perm tasks).map swarm.Task.ID).mem_iff
  rw [Print.of_resolved d out tasks resolver trunc quiet format hok]
  refine ⟨_, rfl, fun id => ?_, fun id => ?_, ?_⟩
  · rw [hnames id, hmem id]
    simp [GoMap.empty]
  · rw [hnodes id, hmem id]
    simp [GoMap.empty]
  · exact hvalues (sort.Stable_Less_nodup_ID tasks hids)

theorem row_maps_keyed_by_task_id_witness :
    answersFor sampleDeps.Resolve () (sort.Stable tasksSortable.Less [sampleB, sampleA])
      = allResolved ["web", "web"] ["manager-1", "manager-1"] ∧
    ([sampleB, sampleA].map swarm.Task.ID).Nodup ∧
    (∃ call, (Print sampleDeps () [sampleB, sampleA] () false false "table").writes = [call] ∧
      (∀ id, (call.names id).isSome = true ↔ id ∈ [sampleB, sampleA].map swarm.Task.ID) ∧
      (∀ id, (call.nodes id).isSome = true ↔ id ∈ [sampleB, sampleA].map swarm.Task.ID) ∧
      ∀ (i : Nat) (task : swarm.Task) (node : String),
        (sort.Stable tasksSortable.Less [sampleB, sampleA])[i]? = some task →
        ["manager-1", "manager-1"][i]? = some node →
        call.nodes task.ID = some node) ∧
    (Print sampleDeps () [sampleB, sampleA] () false false "table").writes.map
      (fun call => (call.nodes "A", call.nodes "B", call.nodes "C", call.names "C"))
      = [(some "manager-1", some "manager-1", none, none)] :=
  ⟨rfl, by decide,
    row_maps_keyed_by_task_id sampleDeps () [sampleB, sampleA] () false false "table"
      ["web", "web"] ["manager-1", "manager-1"] rfl (by decide),
    by decide⟩

/-! ## The first task -/

/-- A canonical name is never the empty string: it contains the dot. -/
theorem Print.name_ne_empty (serviceName : String) (task : swarm.Task) :
    Print.name serviceName task ≠ "" := by
  intro h
  have h1 := congrArg String.data h
  unfold Print.name at h1
  split at h1 <;> simp [String.data_append] at h1

/-- When a planned lookup fails, `Print` returns the error of the first failing
call and does not call the sink. -/
theorem Print.of_failure {σ ε φ ω : Type} (d : Deps σ ε φ ω) (out : ω)
    (tasks : List swarm.Task) (resolver : σ) (trunc quiet : Bool) (format : String) (err : ε)
    (hfail : firstFailure d.Resolve resolver
      (plannedLookups (sort.Stable tasksSortable.Less tasks)) = some err) :
    (Print d out tasks resolver trunc quiet format).err = some err ∧
    (Print d out tasks resolver trunc quiet format).writes = [] := by
  obtain ⟨w1, hrun⟩ := Print.range_failure d
    (formatter.Context.mk out (d.NewTaskFormat format quiet) trunc)
    (sort.Stable tasksSortable.Less tasks) (Walk.mk "" GoMap.empty GoMap.empty resolver [])
    err hfail
  unfold Print
  simp only [hrun, and_self]

/-- C14 (as stated, refuted). Two tasks share the ID `X`; in table mode the
entry the sink gets for the first task of the sorted sequence is the indented
name the second task has written over it, not the canonical name. -/
theorem first_task_entry_overwritten_by_twin :
    (sort.Stable tasksSortable.Less [twinOlder, twinNewer])[0]? = some twinNewer ∧
    (sampleDeps.Resolve () Kind.Service twinNewer.ServiceID).1 = Except.ok "web" ∧
    (Print sampleDeps () [twinOlder, twinNewer] () false false "table").writes.map
      (fun call => call.names twinNewer.ID)
      = [some (" \\_ " ++ Print.name "web" twinNewer)] ∧
    some (" \\_ " ++ Print.name "web" twinNewer) ≠ some (Print.name "web" twinNewer) :=
  ⟨by decide, rfl, by decide, by decide⟩

/-- C14 (amended). The first task is never indented when the task IDs are
unique: the initial previous name `""` never equals a canonical name (also
for an empty service name), and for every task sequence with unique IDs,
every resolver and every format, whenever `Print` reaches the sink the name it
hands over for the first task of the sorted sequence is the canonical name of
that task, without the marker. -/
theorem first_task_not_indented {σ ε φ ω : Type} (d : Deps σ ε φ ω) (out : ω)
    (tasks : List swarm.Task) (resolver : σ) (trunc quiet : Bool) (format : String)
    (first : swarm.Task)
    (hfirst : (sort.Stable tasksSortable.Less tasks)[0]? = some first)
    (hids : (tasks.map swarm.Task.ID).Nodup) :
    (∀ (serviceName : String) (task : swarm.Task), "" ≠ Print.name serviceName task) ∧
    ∀ call ∈ (Print d out tasks resolver trunc quiet format).writes,
      ∃ serviceName,
        (d.Resolve resolver Kind.Service first.ServiceID).1 = Except.ok serviceName ∧
        call.names first.ID = some (Print.name serviceName first) := by
  refine ⟨fun s t h => Print.name_ne_empty s t h.symm, fun call hcall => ?_⟩
  cases hff : firstFailure d.Resolve resolver
      (plannedLookups (sort.Stable tasksSortable.Less tasks)) with
  | some err =>
    rw [(Print.of_failure d out tasks resolver trunc quiet format err hff).2] at hcall
    exact absurd hcall (List.not_mem_nil call)
  | none =>
    obtain ⟨serviceNames, nodeValues, hresolve⟩ :=
      (firstFailure_eq_none_iff d.Resolve _ resolver).mp hff
    obtain ⟨call0, hwrites, hnames⟩ := Print.names_of_resolved d out tasks resolver trunc
      quiet format serviceNames nodeValues hresolve hids
    rw [hwrites, List.mem_singleton] at hcall
    subst hcall
    cases hsorted : sort.Stable tasksSortable.Less tasks with
    | nil => simp [hsorted] at hfirst
    | cons t rest =>
      rw [hsorted] at hfirst hresolve hnames
      simp only [List.getElem?_cons_zero, Option.some.injEq] at hfirst
      subst hfirst
      cases serviceNames with
      | nil => simp [answersFor, allResolved] at hresolve
      | cons s ss =>
        cases nodeValues with
        | nil => simp [answersFor, allResolved] at hresolve
        | cons n ns =>
          simp only [answersFor, allResolved, List.zipWith_cons_cons, List.cons.injEq,
            Prod.mk.injEq] at hresolve
          refine ⟨s, hresolve.1.1, ?_⟩
          have h := hnames 0 t (Print.name s t) "" (by simp) (by simp [canonicalNames])
            (by simp)
          rw [h]
          simp [recordedName, Print.name_ne_empty]

theorem first_task_not_indented_witness :
    (sort.Stable tasksSortable.Less [sampleB, sampleA])[0]? = some sampleA ∧
    ([sampleB, sampleA].map swarm.Task.ID).Nodup ∧
    ((∀ (serviceName : String) (task : swarm.Task), "" ≠ Print.name serviceName task) ∧
      ∀ call ∈ (Print blankDeps () [sampleB, sampleA] () false false "table").writes,
        ∃ serviceName,
          (blankDeps.Resolve () Kind.Service sampleA.ServiceID).1 = Except.ok serviceName ∧
          call.names sampleA.ID = some (Print.name serviceName sampleA)) ∧
    (Print blankDeps () [sampleB, sampleA] () false false "table").writes.map
      (fun call => (call.names "A", call.names "B")) = [(some ".1", some " \\_ .1")] :=
  ⟨by decide, by decide,
    first_task_not_indented blankDeps () [sampleB, sampleA] () false false "table" sampleA
      (by decide) (by decide),
    by decide⟩

/-! ## The order of the lookups -/

section Lookups

variable {σ ε : Type} (resolve : σ → Kind → String → Except ε String × σ)

/-- The calls made until the first failure are an initial part of the calls
asked for. -/
theorem lookupsUntilFailure_initial :
    ∀ (calls : List (Kind × String)) (s : σ),
      ∃ rest, calls = lookupsUntilFailure resolve s calls ++ rest
  | [], _ => ⟨[], rfl⟩
  | (kind, id) :: calls, s => by
    rw [lookupsUntilFailure]
    rcases h : resolve s kind id with ⟨a, s1⟩
    cases a with
    | error e => exact ⟨calls, rfl⟩
    | ok name =>
      obtain ⟨rest, hrest⟩ := lookupsUntilFailure_initial calls s1
      exact ⟨rest, by simp only [List.cons_append]; rw [← hrest]⟩

/-- When no call fails, every call asked for is made. -/
theorem lookupsUntilFailure_of_none :
    ∀ (calls : List (Kind × String)) (s : σ),
      firstFailure resolve s calls = none → lookupsUntilFailure resolve s calls = calls
  | [], _, _ => rfl
  | (kind, id) :: calls, s, h => by
    rw [firstFailure] at h
    rw [lookupsUntilFailure]
    rcases h1 : resolve s kind id with ⟨a, s1⟩
    rw [h1] at h
    cases a with
    | error e => simp at h
    | ok name =>
      simp only at h ⊢
      rw [lookupsUntilFailure_of_none calls s1 h]

/-- When a call fails, the calls made are the calls before the first failing
one, which all succeed, and that failing call. -/
theorem lookupsUntilFailure_of_some :
    ∀ (calls : List (Kind × String)) (s : σ) (err : ε),
      firstFailure resolve s calls = some err →
      ∃ made call, lookupsUntilFailure resolve s calls = made ++ [call] ∧
        firstFailure resolve s made = none ∧
        firstFailure resolve s (made ++ [call]) = some err
  | [], _, _, h => by simp [firstFailure] at h
  | (kind, id) :: calls, s, err, h => by
    rw [firstFailure] at h
    rw [lookupsUntilFailure]
    rcases h1 : resolve s kind id with ⟨a, s1⟩
    rw [h1] at h
    cases a with
    | error e =>
      simp only [Option.some.injEq] at h
      subst h
      refine ⟨[], (kind, id), rfl, rfl, ?_⟩
      simp [firstFailure, h1]
    | ok name =>
      simp only at h ⊢
      obtain ⟨made, call, hmade, hnone, hsome⟩ := lookupsUntilFailure_of_some calls s1 err h
      refine ⟨(kind, id) :: made, call, by rw [hmade]; rfl, ?_, ?_⟩
      · rw [firstFailure, h1]
        exact hnone
      · rw [List.cons_append, firstFailure, h1]
        exact hsome

end Lookups

theorem plannedLookups_length (tasks : List swarm.Task) :
    (plannedLookups tasks).length = 2 * tasks.length := by
  induction tasks with
  | nil => rfl
  | cons t rest ih =>
    simp only [plannedLookups, List.length_cons, ih]
    omega

/-- The loop makes the planned lookups in order until the first failure. -/
theorem Print.range_lookups {σ ε φ ω : Type} (d : Deps σ ε φ ω)
    (tasksCtx : formatter.Context ω φ) :
    ∀ (tasks : List swarm.Task) (w : Walk σ),
      (Print.range d tasksCtx tasks w).1.lookups
        = w.lookups ++ lookupsUntilFailure d.Resolve w.resolver (plannedLookups tasks)
  | [], w => by simp [Print.range, plannedLookups, lookupsUntilFailure]
  | task :: rest, w => by
    rw [plannedLookups, lookupsUntilFailure]
    rcases h1 : d.Resolve w.resolver Kind.Service task.ServiceID with ⟨a1, r1⟩
    have hr1 : (d.Resolve w.resolver Kind.Service task.ServiceID).2 = r1 := by rw [h1]
    cases a1 with
    | error e =>
      rw [Print.range, Print.visit_service_error d tasksCtx w task e (by rw [h1])]
    | ok serviceName =>
      simp only
      rw [lookupsUntilFailure]
      rcases h2 : d.Resolve r1 Kind.Node task.NodeID with ⟨a2, r2⟩
      cases a2 with
      | error e =>
        rw [Print.range, Print.visit_node_error d tasksCtx w task serviceName e (by rw [h1])
          (by rw [hr1, h2])]
      | ok nodeValue =>
        rw [Print.range_cons_ok d tasksCtx w task rest serviceName nodeValue (by rw [h1])
          (by rw [hr1, h2])]
        rw [Print.range_lookups d tasksCtx rest]
        simp only [hr1, h2, List.append_assoc, List.cons_append, List.nil_append]

/-- The resolver calls `Print` makes are the planned lookups over the sorted
tasks, in order, until the first failure. -/
theorem Print.lookups_eq {σ ε φ ω : Type} (d : Deps σ ε φ ω) (out : ω)
    (tasks : List swarm.Task) (resolver : σ) (trunc quiet : Bool) (format : String) :
    (Print d out tasks resolver trunc quiet format).lookups
      = lookupsUntilFailure d.Resolve resolver
          (plannedLookups (sort.Stable tasksSortable.Less tasks)) := by
  have h := Print.range_lookups d
    (formatter.Context.mk out (d.NewTaskFormat format quiet) trunc)
    (sort.Stable tasksSortable.Less tasks) (Walk.mk "" GoMap.empty GoMap.empty resolver [])
  simp only [List.nil_append] at h
  rw [← h]
  unfold Print
  simp only
  split <;> rename_i heq <;> rw [heq]

/-- C15. Fail-fast resolution order: for every task sequence and resolver,
the resolver calls `Print` makes are an initial part of the planned sequence
service(t0), node(t0), service(t1), node(t1), ... over the sorted tasks; when
no call fails it is the whole sequence of 2N calls; when a call fails, the
calls made are the calls before the first failing one, which all succeed,
followed by that failing call and nothing more. -/
theorem lookups_stop_at_first_failure {σ ε φ ω : Type} (d : Deps σ ε φ ω) (out : ω)
    (tasks : List swarm.Task) (resolver : σ) (trunc quiet : Bool) (format : String) :
    (∃ rest, plannedLookups (sort.Stable tasksSortable.Less tasks)
      = (Print d out tasks resolver trunc quiet format).lookups ++ rest) ∧
    (firstFailure d.Resolve resolver
        (plannedLookups (sort.Stable tasksSortable.Less tasks)) = none →
      (Print d out tasks resolver trunc quiet format).lookups
        = plannedLookups (sort.Stable tasksSortable.Less tasks) ∧
      (Print d out tasks resolver trunc quiet format).lookups.length = 2 * tasks.length) ∧
    (∀ err, firstFailure d.Resolve resolver
        (plannedLookups (sort.Stable tasksSortable.Less tasks)) = some err →
      ∃ made call,
        (Print d out tasks resolver trunc quiet format).lookups = made ++ [call] ∧
        firstFailure d.Resolve resolver made = none ∧
        firstFailure d.Resolve resolver (made ++ [call]) = some err) := by
  rw [Print.lookups_eq]
  refine ⟨lookupsUntilFailure_initial d.Resolve _ resolver, fun hnone => ?_, fun err hsome => ?_⟩
  · rw [lookupsUntilFailure_of_none d.Resolve _ resolver hnone, plannedLookups_length,
      (sort.Stable_Less_perm tasks).length_eq]
    exact ⟨rfl, rfl⟩
  · exact lookupsUntilFailure_of_some d.Resolve _ resolver err hsome

theorem lookups_stop_at_first_failure_witness :
    firstFailure failingDeps.Resolve 0
      (plannedLookups (sort.Stable tasksSortable.Less [sampleB, sampleA]))
      = some "lookup failed" ∧
    plannedLookups (sort.Stable tasksSortable.Less [sampleB, sampleA])
      = [(Kind.Service, "svc-web"), (Kind.Node, "node1"),
          (Kind.Service, "svc-web"), (Kind.Node, "node1")] ∧
    (Print failingDeps () [sampleB, sampleA] 0 false false "table").lookups
      = [(Kind.Service, "svc-web"), (Kind.Node, "node1"), (Kind.Service, "svc-web")] ∧
    (∃ made call,
      (Print failingDeps () [sampleB, sampleA] 0 false false "table").lookups
        = made ++ [call] ∧
      firstFailure failingDeps.Resolve 0 made = none ∧
      firstFailure failingDeps.Resolve 0 (made ++ [call]) = some "lookup failed") ∧
    (Print sampleDeps () [sampleB, sampleA] () false false "table").lookups.length = 2 * 2 :=
  ⟨by decide, by decide, by decide,
    (lookups_stop_at_first_failure failingDeps () [sampleB, sampleA] 0 false false
      "table").2.2 "lookup failed" (by decide),
    ((lookups_stop_at_first_failure sampleDeps () [sampleB, sampleA] () false false
      "table").2.1 (by decide)).2⟩

/-! ## Node-pinned tasks -/

theorem String.append_left_cancel_of_eq (s a b : String) (h : s ++ a = s ++ b) : a = b := by
  have h1 := congrArg String.data h
  simp only [String.data_append, List.append_cancel_left_eq] at h1
  exact String.ext h1

theorem getElem?_zipWith_of_some {α β γ : Type} (f : α → β → γ) :
    ∀ (l₁ : List α) (l₂ : List β) (i : Nat) (a : α) (b : β),
      l₁[i]? = some a → l₂[i]? = some b → (List.zipWith f l₁ l₂)[i]? = some (f a b)
  | [], _, _, _, _, h, _ => by simp at h
  | _ :: _, [], _, _, _, _, h => by simp at h
  | x :: xs, y :: ys, 0, a, b, h₁, h₂ => by
    simp only [List.getElem?_cons_zero, Option.some.injEq] at h₁ h₂
    simp [h₁, h₂]
  | x :: xs, y :: ys, i + 1, a, b, h₁, h₂ => by
    simp only [List.getElem?_cons_succ] at h₁ h₂
    simpa using getElem?_zipWith_of_some f xs ys i a b h₁ h₂

theorem drift_sorted :
    sort.Stable tasksSortable.Less [driftTwo, driftOne] = [driftOne, driftTwo] := by
  simp [sort.Stable, sort.insertionSort, sort.sink, tasksSortable.Less, driftOne, driftTwo,
    String.lt_iff_toList_lt]
  decide

theorem pinned_twice_sorted :
    sort.Stable tasksSortable.Less [pinnedTwo, pinnedOne, pinnedTwo]
      = [pinnedOne, pinnedTwo, pinnedTwo] := by
  simp [sort.Stable, sort.insertionSort, sort.sink, tasksSortable.Less, pinnedOne, pinnedTwo,
    String.lt_iff_toList_lt]
  decide

/-- C16 (as stated, refuted). Two tasks without a slot, of the same service
and on different nodes `x.y` and `y`: a resolver that answers the service
first with `web` and later with `web.x` gives both the canonical name
`web.x.y`, and the second is indented under the first in table mode. And with
a resolver that is a plain mapping, the input in which the second of two such
tasks occurs twice makes the sink get the marked name for it. -/
theorem node_pinned_task_indented :
    (driftOne.Slot = 0 ∧ driftTwo.Slot = 0 ∧ driftOne.ServiceID = driftTwo.ServiceID ∧
      driftOne.NodeID ≠ driftTwo.NodeID ∧
      sort.Stable tasksSortable.Less [driftTwo, driftOne] = [driftOne, driftTwo] ∧
      answersFor renamingDeps.Resolve 0 [driftOne, driftTwo]
        = allResolved ["web", "web.x"] ["worker", "worker"] ∧
      Print.name "web" driftOne = Print.name "web.x" driftTwo ∧
      (Print renamingDeps () [driftTwo, driftOne] 0 false false "table").writes.map
        (fun call => (call.names driftOne.ID, call.names driftTwo.ID))
        = [(some "web.x.y", some " \\_ web.x.y")]) ∧
    (pinnedOne.Slot = 0 ∧ pinnedTwo.Slot = 0 ∧ pinnedOne.ServiceID = pinnedTwo.ServiceID ∧
      pinnedOne.NodeID ≠ pinnedTwo.NodeID ∧
      sort.Stable tasksSortable.Less [pinnedTwo, pinnedOne, pinnedTwo]
        = [pinnedOne, pinnedTwo, pinnedTwo] ∧
      (Print mergingDeps () [pinnedTwo, pinnedOne, pinnedTwo] () false false "table").writes.map
        (fun call => (call.names pinnedOne.ID, call.names pinnedTwo.ID))
        = [(some "web.node1", some " \\_ web.node2")]) := by
  refine ⟨⟨rfl, rfl, rfl, by decide, drift_sorted, rfl, by decide, ?_⟩,
    ⟨rfl, rfl, rfl, by decide, pinned_twice_sorted, ?_⟩⟩
  · simp only [Print, drift_sorted]
    decide
  · simp only [Print, pinned_twice_sorted]
    decide

/-- C16 (amended). Node-pinned tasks stay distinguishable when the resolver
answers a ServiceID with one service name (`serviceNameOf`): for every two
tasks with `Slot = 0`, the same ServiceID and different NodeIDs, the
canonical names differ, whatever the NodeIDs resolve to. So when one of them
is the task before the other, the iteration of the other records its
canonical name, without the marker; and when the task IDs are unique, every
lookup succeeds and the two are neighbours in the sorted sequence, the sink
gets in table mode the canonical name of the second one, without the
marker. -/
theorem node_pinned_names_differ (serviceNameOf : String → String) (a b : swarm.Task)
    (ha : a.Slot = 0) (hb : b.Slot = 0) (hservice : a.ServiceID = b.ServiceID)
    (hnode : a.NodeID ≠ b.NodeID) :
    Print.name (serviceNameOf a.ServiceID) a ≠ Print.name (serviceNameOf b.ServiceID) b ∧
    (∀ {σ ε φ ω : Type} (d : Deps σ ε φ ω) (tasksCtx : formatter.Context ω φ) (w : Walk σ)
      (nodeValue : String),
      w.prevName = Print.name (serviceNameOf a.ServiceID) a →
      (d.Resolve w.resolver Kind.Service b.ServiceID).1
        = Except.ok (serviceNameOf b.ServiceID) →
      (d.Resolve (d.Resolve w.resolver Kind.Service b.ServiceID).2 Kind.Node b.NodeID).1
        = Except.ok nodeValue →
      (Print.visit d tasksCtx w b).1.names b.ID
        = some (Print.name (serviceNameOf b.ServiceID) b)) ∧
    (∀ {σ ε φ ω : Type} (d : Deps σ ε φ ω) (out : ω) (tasks : List swarm.Task)
      (resolver : σ) (trunc quiet : Bool) (format : String)
      (serviceNames nodeValues : List String) (i : Nat),
      d.IsTable (d.NewTaskFormat format quiet) = true →
      answersFor d.Resolve resolver (sort.Stable tasksSortable.Less tasks)
        = allResolved serviceNames nodeValues →
      (tasks.map swarm.Task.ID).Nodup →
      (sort.Stable tasksSortable.Less tasks)[i]? = some a →
      (sort.Stable tasksSortable.Less tasks)[i + 1]? = some b →
      serviceNames[i]? = some (serviceNameOf a.ServiceID) →
      serviceNames[i + 1]? = some (serviceNameOf b.ServiceID) →
      ∃ call, (Print d out tasks resolver trunc quiet format).writes = [call] ∧
        call.names b.ID = some (Print.name (serviceNameOf b.ServiceID) b)) := by
  have hne : Print.name (serviceNameOf a.ServiceID) a
      ≠ Print.name (serviceNameOf b.ServiceID) b := by
    intro h
    rw [hservice] at h
    simp only [Print.name, ha, hb, ne_eq, not_true_eq_false, if_false] at h
    exact hnode (String.append_left_cancel_of_eq _ _ _ h)
  refine ⟨hne, fun d tasksCtx w nodeValue hprev hs hn => ?_, ?_⟩
  · rw [Print.visit_ok d tasksCtx w b _ nodeValue hs hn]
    simp only [hprev, if_neg (Ne.symm hne)]
    split
    · rw [GoMap.set_same]
    · rw [GoMap.set_same]
  · intro σ ε φ ω d out tasks resolver trunc quiet format serviceNames nodeValues i htable
      hresolve hids hia hib hsa hsb
    obtain ⟨call, hcall, hnames⟩ := Print.names_of_resolved d out tasks resolver trunc quiet
      format serviceNames nodeValues hresolve hids
    refine ⟨call, hcall, ?_⟩
    have hname : (canonicalNames serviceNames (sort.Stable tasksSortable.Less tasks))[i + 1]?
        = some (Print.name (serviceNameOf b.ServiceID) b) :=
      getElem?_zipWith_of_some Print.name _ _ (i + 1) _ b hsb hib
    have hprev : (canonicalNames serviceNames (sort.Stable tasksSortable.Less tasks))[i]?
        = some (Print.name (serviceNameOf a.ServiceID) a) :=
      getElem?_zipWith_of_some Print.name _ _ i _ a hsa hia
    rw [hnames (i + 1) b _ _ hib hname (by simpa using hprev)]
    simp only [recordedName, htable, if_true, if_neg (Ne.symm hne)]

theorem pinned_sorted :
    sort.Stable tasksSortable.Less [pinnedTwo, pinnedOne] = [pinnedOne, pinnedTwo] := by
  simp [sort.Stable, sort.insertionSort, sort.sink, tasksSortable.Less, pinnedOne, pinnedTwo,
    String.lt_iff_toList_lt]
  decide

theorem node_pinned_names_differ_witness :
    pinnedOne.Slot = 0 ∧ pinnedTwo.Slot = 0 ∧ pinnedOne.ServiceID = pinnedTwo.ServiceID ∧
    pinnedOne.NodeID ≠ pinnedTwo.NodeID ∧
    (mergingDeps.Resolve () Kind.Node pinnedOne.NodeID).1
      = (mergingDeps.Resolve () Kind.Node pinnedTwo.NodeID).1 ∧
    Print.name "web" pinnedOne ≠ Print.name "web" pinnedTwo ∧
    (Print.visit mergingDeps (formatter.Context.mk () "table" false)
      (Walk.mk (Print.name "web" pinnedOne) GoMap.empty GoMap.empty () []) pinnedTwo).1.names
        pinnedTwo.ID = some (Print.name "web" pinnedTwo) ∧
    (∃ call, (Print mergingDeps () [pinnedTwo, pinnedOne] () false false "table").writes
        = [call] ∧
      call.names pinnedTwo.ID = some (Print.name "web" pinnedTwo)) ∧
    Print.name "web" pinnedTwo = "web.node2" :=
  ⟨rfl, rfl, rfl, by decide, rfl,
    (node_pinned_names_differ (fun _ => "web") pinnedOne pinnedTwo rfl rfl rfl
      (by decide)).1,
    (node_pinned_names_differ (fun _ => "web") pinnedOne pinnedTwo rfl rfl rfl
      (by decide)).2.1 mergingDeps (formatter.Context.mk () "table" false)
      (Walk.mk (Print.name "web" pinnedOne) GoMap.empty GoMap.empty () []) "worker"
      rfl rfl rfl,
    (node_pinned_names_differ (fun _ => "web") pinnedOne pinnedTwo rfl rfl rfl
      (by decide)).2.2 mergingDeps () [pinnedTwo, pinnedOne] () false false "table"
      ["web", "web"] ["worker", "worker"] 0 (by decide)
      (by rw [pinned_sorted]; rfl) (by decide)
      (by rw [pinned_sorted]; rfl) (by rw [pinned_sorted]; rfl) rfl rfl,
    by decide⟩

/-! ## The comparator as an ordering -/

theorem tasksSortable.Less_trans (a b c : swarm.Task) (hab : tasksSortable.Less a b = true)
    (hbc : tasksSortable.Less b c = true) : tasksSortable.Less a c = true := by
  cases hac : tasksSortable.Less a c with
  | true => rfl
  | false =>
    cases hcb : tasksSortable.Less c b with
    | true => rw [tasksSortable.Less_asymm c b hcb] at hbc; exact hbc
    | false => rw [tasksSortable.not_Less_trans a c b hac hcb] at hab; exact hab

theorem tasksSortable.unordered_iff_sameKeys (a b : swarm.Task) :
    (tasksSortable.Less a b = false ∧ tasksSortable.Less b a = false) ↔
      sameKeys a b = true := by
  constructor
  · rintro ⟨hab, hba⟩
    rw [tasksSortable.Less_eq_false_iff] at hab hba
    simp only [sameKeys, decide_eq_true_eq]
    rcases hab with h | ⟨h1, h⟩
    · rcases hba with k | ⟨k1, _⟩
      · exact absurd k (lt_asymm h)
      · exact absurd k1.symm h.ne'
    · rcases hba with k | ⟨_, k⟩
      · exact absurd h1.symm k.ne'
      · rcases h with h | ⟨h2, h⟩
        · rcases k with k | ⟨k2, _⟩
          · exact absurd k (lt_asymm h)
          · exact absurd k2.symm h.ne'
        · rcases k with k | ⟨_, k⟩
          · exact absurd h2.symm k.ne'
          · rcases h with h | ⟨h3, h⟩
            · rcases k with k | ⟨k3, _⟩
              · exact absurd k (lt_asymm h)
              · exact absurd k3.symm h.ne'
            · rcases k with k | ⟨_, k⟩
              · exact absurd h3.symm k.ne'
              · refine ⟨h1, h2, h3, ?_⟩
                by_contra hne
                rcases time.Time.Before_total _ _ hne with hb | hb
                · rw [k] at hb
                  exact absurd hb (by decide)
                · rw [h] at hb
                  exact absurd hb (by decide)
  · intro h
    exact ⟨tasksSortable.Less_eq_false_of_sameKeys a b h,
      tasksSortable.Less_eq_false_of_sameKeys b a (sameKeys_symm a b h)⟩

/-- Two tasks that differ in one of the four keys are ordered one way. -/
theorem tasksSortable.Less_total (a b : swarm.Task) (h : sameKeys a b = false) :
    tasksSortable.Less a b = true ∨ tasksSortable.Less b a = true := by
  cases hab : tasksSortable.Less a b with
  | true => exact Or.inl rfl
  | false =>
    cases hba : tasksSortable.Less b a with
    | true => exact Or.inr rfl
    | false =>
      rw [(tasksSortable.unordered_iff_sameKeys a b).mp ⟨hab, hba⟩] at h
      exact absurd h (by decide)

/-- C18. The comparator `tasksSortable.Less` is a strict weak ordering on
tasks: it is irreflexive and transitive; "neither is less than the other" is
transitive and holds exactly when the two tasks agree on ServiceID, Slot,
NodeID and CreatedAt; and two tasks that differ in one of the four keys are
strictly ordered one way and not the other. -/
theorem Less_is_strict_weak_ordering :
    (∀ a, tasksSortable.Less a a = false) ∧
    (∀ a b c, tasksSortable.Less a b = true → tasksSortable.Less b c = true →
      tasksSortable.Less a c = true) ∧
    (∀ a b c, (tasksSortable.Less a b = false ∧ tasksSortable.Less b a = false) →
      (tasksSortable.Less b c = false ∧ tasksSortable.Less c b = false) →
      (tasksSortable.Less a c = false ∧ tasksSortable.Less c a = false)) ∧
    (∀ a b, (tasksSortable.Less a b = false ∧ tasksSortable.Less b a = false) ↔
      (a.ServiceID = b.ServiceID ∧ a.Slot = b.Slot ∧ a.NodeID = b.NodeID ∧
        a.CreatedAt = b.CreatedAt)) ∧
    (∀ a b, ¬ (a.ServiceID = b.ServiceID ∧ a.Slot = b.Slot ∧ a.NodeID = b.NodeID ∧
        a.CreatedAt = b.CreatedAt) →
      (tasksSortable.Less a b = true ∧ tasksSortable.Less b a = false) ∨
      (tasksSortable.Less b a = true ∧ tasksSortable.Less a b = false)) := by
  refine ⟨tasksSortable.Less_irrefl, tasksSortable.Less_trans, ?_, ?_, ?_⟩
  · intro a b c hab hbc
    exact ⟨tasksSortable.not_Less_trans a b c hab.1 hbc.1,
      tasksSortable.not_Less_trans c b a hbc.2 hab.2⟩
  · intro a b
    rw [tasksSortable.unordered_iff_sameKeys]
    simp [sameKeys]
  · intro a b h
    have hs : sameKeys a b = false := by
      simpa [sameKeys] using h
    rcases tasksSortable.Less_total a b hs with hab | hba
    · exact Or.inl ⟨hab, tasksSortable.Less_asymm a b hab⟩
    · exact Or.inr ⟨hba, tasksSortable.Less_asymm b a hba⟩

theorem Less_is_strict_weak_ordering_witness :
    tasksSortable.Less sampleA sampleB = true ∧ tasksSortable.Less sampleB sampleA = false ∧
    tasksSortable.Less sampleB sampleC = false ∧ tasksSortable.Less sampleC sampleB = false ∧
    ((tasksSortable.Less sampleA sampleB = true ∧ tasksSortable.Less sampleB sampleA = false) ∨
      (tasksSortable.Less sampleB sampleA = true ∧
        tasksSortable.Less sampleA sampleB = false)) :=
  ⟨by decide, by decide, by decide, by decide,
    Less_is_strict_weak_ordering.2.2.2.2 sampleA sampleB (by decide)⟩

/-! ## The caller's slice -/

/-- C19 (as stated, refuted). `Print` is called on the slice `[sampleB,
sampleA]`; when it returns, with `nil` or with the resolver's error, the
slice is `[sampleA, sampleB]`: the two tasks have changed places. -/
theorem caller_slice_is_reordered :
    (Print sampleDeps () [sampleB, sampleA] () false false "table").err = none ∧
    (Print sampleDeps () [sampleB, sampleA] () false false "table").tasks
      = [sampleA, sampleB] ∧
    (Print failingDeps () [sampleB, sampleA] 0 false false "table").err
      = some "lookup failed" ∧
    (Print failingDeps () [sampleB, sampleA] 0 false false "table").tasks
      = [sampleA, sampleB] ∧
    [sampleA, sampleB] ≠ [sampleB, sampleA] :=
  ⟨by decide, by decide, by decide, by decide, by decide⟩

/-- The slice `Print` leaves behind is the sorted one, whatever else happens. -/
theorem Print.tasks_eq {σ ε φ ω : Type} (d : Deps σ ε φ ω) (out : ω)
    (tasks : List swarm.Task) (resolver : σ) (trunc quiet : Bool) (format : String) :
    (Print d out tasks resolver trunc quiet format).tasks
      = sort.Stable tasksSortable.Less tasks := by
  unfold Print
  simp only
  split <;> rfl

/-- C19 (amended). Tasks are only reordered: for every input, after `Print`
returns (with or without an error) the caller's task slice holds the same
tasks as before the call, in the stably sorted order, so at the same
positions if the slice was in that order already; `Print` never changes,
creates or destroys a task of its input. -/
theorem caller_slice_is_sorted_in_place {σ ε φ ω : Type} (d : Deps σ ε φ ω) (out : ω)
    (tasks : List swarm.Task) (resolver : σ) (trunc quiet : Bool) (format : String) :
    (Print d out tasks resolver trunc quiet format).tasks
      = sort.Stable tasksSortable.Less tasks ∧
    (Print d out tasks resolver trunc quiet format).tasks.Perm tasks ∧
    (tasks.Chain' (fun a b => tasksSortable.Less b a = false) →
      (Print d out tasks resolver trunc quiet format).tasks = tasks) := by
  rw [Print.tasks_eq]
  exact ⟨rfl, sort.Stable_Less_perm tasks,
    fun h => sort.insertionSort_of_chain tasksSortable.Less tasks h⟩

theorem caller_slice_is_sorted_in_place_witness :
    [sampleA, sampleB].Chain' (fun a b => tasksSortable.Less b a = false) ∧
    (Print sampleDeps () [sampleA, sampleB] () false false "table").tasks
      = [sampleA, sampleB] :=
  ⟨List.chain'_pair.mpr (by decide),
    (caller_slice_is_sorted_in_place sampleDeps () [sampleA, sampleB] () false false
      "table").2.2 (List.chain'_pair.mpr (by decide))⟩

/-! ## Independence of the input order -/

/-- In a sequence without ties, at most one task has the keys of a given task. -/
theorem filter_sameKeys_length_le_one (a : swarm.Task) (l : List swarm.Task)
    (h : l.Pairwise (fun x y => sameKeys x y = false)) :
    (l.filter (sameKeys a)).length ≤ 1 := by
  induction l with
  | nil => simp
  | cons x xs ih =>
    rw [List.pairwise_cons] at h
    by_cases hx : sameKeys a x = true
    · have hnone : xs.filter (sameKeys a) = [] := by
        rw [List.filter_eq_nil_iff]
        intro y hy hay
        have hxy := sameKeys_trans x a y (sameKeys_symm a x hx) hay
        rw [h.1 y hy] at hxy
        exact absurd hxy (by decide)
      simp [List.filter_cons, hx, hnone]
    · simp only [List.filter_cons, hx, Bool.false_eq_true, if_false]
      exact ih h.2

theorem perm_eq_of_length_le_one {α : Type} (l₁ l₂ : List α) (hperm : l₁.Perm l₂)
    (h : l₁.length ≤ 1) : l₁ = l₂ := by
  match l₁, l₂, hperm, h with
  | [], l₂, hperm, _ => exact (List.nil_perm.mp hperm).symm
  | [x], l₂, hperm, _ => exact List.singleton_perm.mp hperm
  | _ :: _ :: _, _, _, h => simp at h

/-- Two inputs that list the tasks of every key class in the same order are
sorted to the same sequence. -/
theorem sort.Stable_Less_eq_of_filter (l₁ l₂ : List swarm.Task)
    (h : ∀ a, l₁.filter (sameKeys a) = l₂.filter (sameKeys a)) :
    sort.Stable tasksSortable.Less l₁ = sort.Stable tasksSortable.Less l₂ := by
  have hclass : ∀ a : swarm.Task,
      (fun b => !tasksSortable.Less a b && !tasksSortable.Less b a) = sameKeys a := by
    intro a
    funext b
    have := tasksSortable.unordered_iff_sameKeys a b
    cases h1 : tasksSortable.Less a b <;> cases h2 : tasksSortable.Less b a <;>
      cases h3 : sameKeys a b <;> simp_all
  have hstable : ∀ (l : List swarm.Task) (a : swarm.Task),
      (sort.Stable tasksSortable.Less l).filter (sameKeys a) = l.filter (sameKeys a) :=
    fun l a => sort.insertionSort_filter tasksSortable.Less (sameKeys a)
      (fun x y hx hy => tasksSortable.Less_eq_false_of_sameKeys x y
        (sameKeys_trans x a y (sameKeys_symm a x hx) hy)) l
  refine sort.eq_of_pairwise_of_filter tasksSortable.Less tasksSortable.Less_irrefl _ _
    (sort.Stable_Less_pairwise l₁) (sort.Stable_Less_pairwise l₂) (fun a => ?_)
  rw [hclass a, hstable l₁ a, hstable l₂ a, h a]

/-- C20. Input-order independence: two task sequences that are permutations
of each other and in which no two tasks agree on all of ServiceID, Slot,
NodeID and CreatedAt are sorted to the same sequence; in general the order of
the input matters only within the tasks that tie on all four keys: two
inputs that list the tasks of every key class in the same order are sorted to
the same sequence. -/
theorem sort_ignores_input_order (l₁ l₂ : List swarm.Task) :
    (l₁.Perm l₂ → l₁.Pairwise (fun a b => sameKeys a b = false) →
      l₂.Pairwise (fun a b => sameKeys a b = false) ∧
      sort.Stable tasksSortable.Less l₁ = sort.Stable tasksSortable.Less l₂) ∧
    ((∀ a, l₁.filter (sameKeys a) = l₂.filter (sameKeys a)) →
      sort.Stable tasksSortable.Less l₁ = sort.Stable tasksSortable.Less l₂) := by
  refine ⟨fun hperm hties => ?_, sort.Stable_Less_eq_of_filter l₁ l₂⟩
  have hsymm : ∀ {x y : swarm.Task}, sameKeys x y = false → sameKeys y x = false := by
    intro x y hxy
    cases hyx : sameKeys y x with
    | false => rfl
    | true => rw [sameKeys_symm y x hyx] at hxy; exact absurd hxy (by decide)
  refine ⟨(hperm.pairwise_iff hsymm).mp hties, ?_⟩
  refine sort.Stable_Less_eq_of_filter l₁ l₂ (fun a => ?_)
  exact perm_eq_of_length_le_one _ _ (hperm.filter _)
    (filter_sameKeys_length_le_one a l₁ hties)

theorem sort_ignores_input_order_witness :
    [sampleB, sampleD, sampleA].Perm [sampleA, sampleB, sampleD] ∧
    [sampleB, sampleD, sampleA].Pairwise (fun a b => sameKeys a b = false) ∧
    sort.Stable tasksSortable.Less [sampleB, sampleD, sampleA]
      = sort.Stable tasksSortable.Less [sampleA, sampleB, sampleD] :=
  ⟨by decide, by decide,
    ((sort_ignores_input_order [sampleB, sampleD, sampleA] [sampleA, sampleB, sampleD]).1
      (by decide) (by decide)).2⟩

/-! ## What an indented row tells -/

theorem Nat.digitChar_value (k : Nat) (h : k < 10) : (Nat.digitChar k).toNat - 48 = k := by
  interval_cases k <;> rfl

theorem Nat.digitChar_ne_minus (k : Nat) (h : k < 10) : Nat.digitChar k ≠ '-' := by
  interval_cases k <;> decide

/-- The digits `Nat.toDigitsCore` writes in front of `ds` denote `n`. -/
theorem decimalValue_toDigitsCore :
    ∀ (fuel n : Nat) (ds : List Char), n < fuel →
      decimalValue (Nat.toDigitsCore 10 fuel n ds) = n * 10 ^ ds.length + decimalValue ds
  | 0, _, _, h => absurd h (Nat.not_lt_zero _)
  | fuel + 1, n, ds, h => by
    rw [Nat.toDigitsCore]
    split
    · rename_i h0
      have hn : n < 10 := by omega
      have hmod : n % 10 = n := Nat.mod_eq_of_lt hn
      rw [hmod]
      simp [decimalValue, Nat.digitChar_value n hn]
    · rename_i h0
      have hlt : n / 10 < fuel := by omega
      rw [decimalValue_toDigitsCore fuel (n / 10) (Nat.digitChar (n % 10) :: ds) hlt]
      simp only [decimalValue, List.length_cons,
        Nat.digitChar_value (n % 10) (Nat.mod_lt n (by decide))]
      have := Nat.div_add_mod n 10
      rw [pow_succ]
      nth_rewrite 3 [← this]
      ring

/-- The decimal digits of a natural number contain no minus sign. -/
theorem minus_not_mem_toDigitsCore :
    ∀ (fuel n : Nat) (ds : List Char), (∀ c ∈ ds, c ≠ '-') →
      ∀ c ∈ Nat.toDigitsCore 10 fuel n ds, c ≠ '-'
  | 0, _, ds, h => by
    rw [Nat.toDigitsCore]
    exact h
  | fuel + 1, n, ds, h => by
    have hd : ∀ c ∈ Nat.digitChar (n % 10) :: ds, c ≠ '-' := by
      intro c hc
      rcases List.mem_cons.mp hc with rfl | hc
      · exact Nat.digitChar_ne_minus _ (Nat.mod_lt n (by decide))
      · exact h c hc
    rw [Nat.toDigitsCore]
    split
    · exact hd
    · exact minus_not_mem_toDigitsCore fuel (n / 10) _ hd

/-- Different natural numbers have different decimal renderings. -/
theorem Nat.repr_injective_decimal (n m : Nat) (h : Nat.repr n = Nat.repr m) : n = m := by
  have h1 : Nat.toDigits 10 n = Nat.toDigits 10 m := by
    have := congrArg String.data h
    simpa [Nat.repr, List.asString] using this
  have hn := decimalValue_toDigitsCore (n + 1) n [] (Nat.lt_succ_self n)
  have hm := decimalValue_toDigitsCore (m + 1) m [] (Nat.lt_succ_self m)
  unfold Nat.toDigits at h1
  rw [h1, hm] at hn
  simpa [decimalValue] using hn.symm

/-- Different integers have different decimal renderings
(`fmt.Sprintf("%v", slot)`). -/
theorem Int.toString_injective (a b : Int) (h : toString a = toString b) : a = b := by
  have hminus : ∀ (k m : Nat), toString (Int.ofNat k) ≠ toString (Int.negSucc m) := by
    intro k m hkm
    have h1 := congrArg String.data hkm
    have hmem : '-' ∈ Nat.toDigits 10 k := by
      have : (toString (Int.ofNat k)).data = Nat.toDigits 10 k := rfl
      rw [← this, h1]
      show '-' ∈ ("-" ++ toString (m + 1)).data
      simp [String.data_append]
    exact minus_not_mem_toDigitsCore (k + 1) k [] (fun c hc => absurd hc (List.not_mem_nil c))
      '-' hmem rfl
  cases a with
  | ofNat k =>
    cases b with
    | ofNat m =>
      have : Nat.repr k = Nat.repr m := h
      rw [Nat.repr_injective_decimal k m this]
    | negSucc m => exact absurd h (hminus k m)
  | negSucc k =>
    cases b with
    | ofNat m => exact absurd h.symm (hminus m k)
    | negSucc m =>
      have h1 : "-" ++ Nat.repr (k + 1) = "-" ++ Nat.repr (m + 1) := h
      have h2 : Nat.repr (k + 1) = Nat.repr (m + 1) := by
        have h3 := congrArg String.data h1
        simp only [String.data_append, List.append_cancel_left_eq] at h3
        exact String.ext h3
      have := Nat.repr_injective_decimal _ _ h2
      have hk : k = m := by omega
      rw [hk]

theorem marker_append_ne (name : String) : " \\_ " ++ name ≠ name := by
  intro h
  have h1 := congrArg (fun s => s.data.length) h
  simp [String.data_append] at h1
  omega

theorem rivals_sorted :
    sort.Stable tasksSortable.Less [rivalTwo, rivalOne] = [rivalOne, rivalTwo] := by
  simp [sort.Stable, sort.insertionSort, sort.sink, tasksSortable.Less, rivalOne, rivalTwo,
    String.lt_iff_toList_lt]
  decide

/-- C17 (as stated, refuted). Two services resolve to the same name `web`:
the task of the second is indented under the task of the first although the
ServiceIDs differ. And within one service, a task without a slot on the node
with ID `1` and the task of slot 1 both have the name `web.1`: the second is
indented although the Slots differ. -/
theorem indented_row_of_other_service_or_slot :
    (sort.Stable tasksSortable.Less [rivalTwo, rivalOne] = [rivalOne, rivalTwo] ∧
      (Print mergingDeps () [rivalTwo, rivalOne] () false false "table").writes.map
        (fun call => call.names rivalTwo.ID) = [some (" \\_ " ++ Print.name "web" rivalTwo)] ∧
      rivalOne.ServiceID ≠ rivalTwo.ServiceID) ∧
    (sort.Stable tasksSortable.Less [slotOne, numberedNode] = [numberedNode, slotOne] ∧
      (Print sampleDeps () [slotOne, numberedNode] () false false "table").writes.map
        (fun call => call.names slotOne.ID) = [some (" \\_ " ++ Print.name "web" slotOne)] ∧
      numberedNode.ServiceID = slotOne.ServiceID ∧ numberedNode.Slot ≠ slotOne.Slot) := by
  refine ⟨⟨rivals_sorted, ?_, by decide⟩, by decide, by decide, rfl, by decide⟩
  simp only [Print, rivals_sorted]
  decide

/-- C17 (amended). An indented row repeats the name of the row before it: in
table mode, when every lookup succeeds and the task IDs are unique, whenever
the name of a task carries the marker, its canonical name is string-equal to
that of the task immediately before it in sorted order. If moreover the
services of the two tasks resolved to the same name, then two tasks with a
slot have the same Slot, two tasks without a slot have the same NodeID, and a
task with a slot and one without coincide only when the NodeID is the decimal
rendering of the Slot. The ServiceIDs need not be equal. -/
theorem indented_row_repeats_previous_name {σ ε φ ω : Type} (d : Deps σ ε φ ω) (out : ω)
    (tasks : List swarm.Task) (resolver : σ) (trunc quiet : Bool) (format : String)
    (serviceNames nodeValues : List String)
    (htable : d.IsTable (d.NewTaskFormat format quiet) = true)
    (hresolve : answersFor d.Resolve resolver (sort.Stable tasksSortable.Less tasks)
      = allResolved serviceNames nodeValues)
    (hids : (tasks.map swarm.Task.ID).Nodup) :
    ∃ call, (Print d out tasks resolver trunc quiet format).writes = [call] ∧
      ∀ (i : Nat) (task before : swarm.Task) (service serviceBefore : String),
        (sort.Stable tasksSortable.Less tasks)[i + 1]? = some task →
        (sort.Stable tasksSortable.Less tasks)[i]? = some before →
        serviceNames[i + 1]? = some service →
        serviceNames[i]? = some serviceBefore →
        call.names task.ID = some (" \\_ " ++ Print.name service task) →
        Print.name service task = Print.name serviceBefore before ∧
        (service = serviceBefore →
          (task.Slot ≠ 0 → before.Slot ≠ 0 → task.Slot = before.Slot) ∧
          (task.Slot = 0 → before.Slot = 0 → task.NodeID = before.NodeID) ∧
          (task.Slot ≠ 0 → before.Slot = 0 → before.NodeID = toString task.Slot) ∧
          (task.Slot = 0 → before.Slot ≠ 0 → task.NodeID = toString before.Slot)) := by
  obtain ⟨call, hcall, hnames⟩ := Print.names_of_resolved d out tasks resolver trunc quiet
    format serviceNames nodeValues hresolve hids
  refine ⟨call, hcall, fun i task before service serviceBefore hi hb hs hsb hmark => ?_⟩
  have hname : (canonicalNames serviceNames (sort.Stable tasksSortable.Less tasks))[i + 1]?
      = some (Print.name service task) :=
    getElem?_zipWith_of_some Print.name _ _ (i + 1) service task hs hi
  have hprev : (canonicalNames serviceNames (sort.Stable tasksSortable.Less tasks))[i]?
      = some (Print.name serviceBefore before) :=
    getElem?_zipWith_of_some Print.name _ _ i serviceBefore before hsb hb
  have h := hnames (i + 1) task _ _ hi hname (by simpa using hprev)
  rw [hmark, htable] at h
  simp only [recordedName, if_true, Option.some.injEq] at h
  have heq : Print.name service task = Print.name serviceBefore before := by
    by_contra hne
    rw [if_neg hne] at h
    exact marker_append_ne _ h
  refine ⟨heq, fun hsame => ?_⟩
  subst hsame
  refine ⟨fun ht hbf => ?_, fun ht hbf => ?_, fun ht hbf => ?_, fun ht hbf => ?_⟩
  · simp only [Print.name, ht, hbf, ne_eq, not_false_eq_true, if_true] at heq
    exact Int.toString_injective _ _ (String.append_left_cancel_of_eq _ _ _ heq)
  · simp only [Print.name, ht, hbf, ne_eq, not_true_eq_false, if_false] at heq
    exact String.append_left_cancel_of_eq _ _ _ heq
  · simp only [Print.name, ht, hbf, ne_eq, not_false_eq_true, if_true, not_true_eq_false,
      if_false] at heq
    exact (String.append_left_cancel_of_eq _ _ _ heq).symm
  · simp only [Print.name, ht, hbf, ne_eq, not_false_eq_true, if_true, not_true_eq_false,
      if_false] at heq
    exact String.append_left_cancel_of_eq _ _ _ heq

theorem indented_row_repeats_previous_name_witness :
    sampleDeps.IsTable (sampleDeps.NewTaskFormat "table" false) = true ∧
    answersFor sampleDeps.Resolve () (sort.Stable tasksSortable.Less [sampleB, sampleA])
      = allResolved ["web", "web"] ["manager-1", "manager-1"] ∧
    ([sampleB, sampleA].map swarm.Task.ID).Nodup ∧
    (sort.Stable tasksSortable.Less [sampleB, sampleA])[1]? = some sampleB ∧
    (sort.Stable tasksSortable.Less [sampleB, sampleA])[0]? = some sampleA ∧
    (Print sampleDeps () [sampleB, sampleA] () false false "table").writes.map
      (fun call => call.names sampleB.ID) = [some (" \\_ " ++ Print.name "web" sampleB)] ∧
    (∃ call, (Print sampleDeps () [sampleB, sampleA] () false false "table").writes = [call] ∧
      ∀ (i : Nat) (task before : swarm.Task) (service serviceBefore : String),
        (sort.Stable tasksSortable.Less [sampleB, sampleA])[i + 1]? = some task →
        (sort.Stable tasksSortable.Less [sampleB, sampleA])[i]? = some before →
        ["web", "web"][i + 1]? = some service →
        ["web", "web"][i]? = some serviceBefore →
        call.names task.ID = some (" \\_ " ++ Print.name service task) →
        Print.name service task = Print.name serviceBefore before ∧
        (service = serviceBefore →
          (task.Slot ≠ 0 → before.Slot ≠ 0 → task.Slot = before.Slot) ∧
          (task.Slot = 0 → before.Slot = 0 → task.NodeID = before.NodeID) ∧
          (task.Slot ≠ 0 → before.Slot = 0 → before.NodeID = toString task.Slot) ∧
          (task.Slot = 0 → before.Slot ≠ 0 → task.NodeID = toString before.Slot))) :=
  ⟨by decide, rfl, by decide, by decide, by decide, by decide,
    indented_row_repeats_previous_name sampleDeps () [sampleB, sampleA] () false false "table"
      ["web", "web"] ["manager-1", "manager-1"] (by decide) rfl (by decide)⟩
